import Mathlib

/-!
Verification of the lazy native-kernel loader and the CPU Adam optimizer driver
of `deepspeed/ops/adam/cpu_adam.py` (class `DeepSpeedCPUAdam`), by a shallow
embedding of the Python code into Lean.

Modelling conventions:
* Tensors are records carrying an allocation identity `tid`, a `shape`, a
  `dtype`, a `device` and rational `data`; in-place kernel writes replace only
  the `data` field, which is exactly what an in-place buffer write can change.
* The native kernel (`csrc/adam/cpu_adam.cpp`, referenced by `load_op` but an
  external numeric backend) is an abstract `Kernel` record of pure functions
  on the raw data vectors; the driver is verified for every kernel.
* The filesystem build-cache protocol is modelled by boolean markers plus a
  time-indexed `doneAt` oracle describing when an external actor writes the
  "done" marker; the polling loop of `wait_if_build_started` is fuel-indexed,
  and non-termination is "returns none at every fuel".
* Python exceptions (a failing kernel call, an out-of-range fp16 lookup) are
  modelled by an error flag in the accumulator threaded through `step`; once
  the flag is set the remaining iterations are pass-through, mirroring the
  exception aborting the loop while earlier in-place mutations persist.
-/

namespace DeepSpeedCPUAdam

/-- Device of a tensor buffer. -/
inductive Device
  | cpu
  | cuda
deriving DecidableEq, Repr

/-- Numeric precision of a tensor buffer. -/
inductive DType
  | f32
  | f16
deriving DecidableEq, Repr

/-- A tensor: allocation identity `tid` (object identity of the buffer),
shape, dtype, device, and the buffer contents. In-place mutation can change
`data` only. -/
structure Tensor where
  tid : Nat
  shape : List Nat
  dtype : DType
  device : Device
  data : List ℚ
deriving DecidableEq, Repr

/-- A caller-supplied parameter: its data tensor and an optional gradient
(`p.grad` in the Python source, `None` when absent). -/
structure Param where
  data : Tensor
  grad : Option Tensor
deriving DecidableEq, Repr

/-- Per-parameter optimizer state, `self.state[p]` in the source:
step counter and the two moment buffers. -/
structure PState where
  step : Nat
  exp_avg : Tensor
  exp_avg_sq : Tensor
deriving DecidableEq, Repr

/-- A parameter together with its (possibly absent) optimizer state entry.
The Python `self.state` dict is keyed by parameter identity; since the
parameter groups are fixed at construction we key it positionally. -/
structure Slot where
  p : Param
  st : Option PState
deriving DecidableEq, Repr

/-- The constructor hyperparameters (the group defaults dict). -/
structure Config where
  lr : ℚ
  beta1 : ℚ
  beta2 : ℚ
  eps : ℚ
  weight_decay : ℚ
  amsgrad : Bool
deriving DecidableEq, Repr

/-- One entry of `self.param_groups`: ordered parameters (with their state
slots) plus the stored defaults. -/
structure ParamGroup where
  slots : List Slot
  cfg : Config
deriving DecidableEq, Repr

/-- The observable calls made to the loaded native module `ds_opt_adam`:
`create_adam`, `adam_update`, `adam_update_copy`. The update entries are
tagged with the group index `gi` and parameter index `pi` of the parameter
being processed and record the tensors passed at call time. -/
inductive KCall
  | create (oid : Nat) (lr beta1 beta2 eps weight_decay : ℚ)
  | update (gi pi oid : Nat) (p g m v : Tensor)
  | update_copy (gi pi oid : Nat) (p g m v sh : Tensor)
deriving DecidableEq, Repr

/-- The external native kernel: pure functions on raw buffers. `upd` maps
(opt id, param, grad, exp_avg, exp_avg_sq) to the written-back
(param, exp_avg, exp_avg_sq); `updCopy` additionally takes and writes back
the fp16 shadow buffer. The exact recurrence is the backend's. -/
structure Kernel where
  upd : Nat → List ℚ → List ℚ → List ℚ → List ℚ → List ℚ × List ℚ × List ℚ
  updCopy : Nat → List ℚ → List ℚ → List ℚ → List ℚ → List ℚ →
    List ℚ × List ℚ × List ℚ × List ℚ

/- ### The build coordinator: `wait_if_build_started` and `load_op` -/

/-- The external world as one process observes it while running `load_op`:
whether the variant's "started" marker exists when the wait begins, whether
the "done" marker exists at poll time `t` (external actors may write it),
and whether a compiled artifact is already present in the cache when the
external loader runs. -/
structure World where
  startedInit : Bool
  doneAt : Nat → Bool
  artifact : Bool

/-- Process-wide mutable class state of `DeepSpeedCPUAdam` plus an
instrumentation of this process's externally visible build actions:
the memoized module handle `ds_opt_adam`, the instance counter
`optimizer_id`, whether this process touched the "started" / "done"
markers, and how many actual compilations it triggered. -/
structure ProcState where
  ds_opt_adam : Option Nat
  optimizer_id : Nat
  wroteStarted : Bool
  wroteDone : Bool
  compiles : Nat
deriving DecidableEq, Repr

/-- A fresh Python process: empty cache, counter at zero, nothing written. -/
def freshProc : ProcState :=
  { ds_opt_adam := none, optimizer_id := 0,
    wroteStarted := false, wroteDone := false, compiles := 0 }

/-- The polling loop body of `wait_if_build_started`: at poll time `t`,
return true as soon as the "done" marker is observed; `fuel` bounds the
number of polls we unroll (the Python loop is unbounded; divergence is
"false at every fuel"). -/
def waitLoop (doneAt : Nat → Bool) : Nat → Nat → Bool
  | 0, _ => false
  | fuel + 1, t => if doneAt t then true else waitLoop doneAt fuel (t + 1)

/-- `DeepSpeedCPUAdam.wait_if_build_started`: if the "started" marker file
exists, poll until the "done" marker appears (true = the wait returned
within `fuel` polls); otherwise return immediately. -/
def wait_if_build_started (startedMarker : Bool) (doneAt : Nat → Bool) (fuel : Nat) : Bool :=
  if startedMarker then waitLoop doneAt fuel 0 else true

/-- The handle of the loaded `ds_cpu_adam` module artifact. -/
def dsCpuAdamHandle : Nat := 0

/-- Modelled from the spec: the external compiler/loader boundary
(`torch.utils.cpp_extension.load`, §6 "Native compiler invocation"), which
"either succeeds and produces a loadable artifact or raises BuildError" and,
per §4.1, loads and returns the prebuilt artifact when one is already
present in the build cache, compiling only otherwise. Returns the loaded
handle and whether a compilation was performed. -/
def loadExt (artifact : Bool) : Nat × Bool :=
  (dsCpuAdamHandle, !artifact)

/-- `DeepSpeedCPUAdam.load_op`: if the class-level handle is cached, return
it with no side effects; otherwise wait on the "started"/"done" markers,
touch "started", invoke the external loader, touch "done", cache and return
the handle. `none` means the call is still blocked in the wait loop after
`fuel` polls. -/
def load_op (fuel : Nat) (w : World) (s : ProcState) : Option (Nat × ProcState) :=
  match s.ds_opt_adam with
  | some h => some (h, s)
  | none =>
    if wait_if_build_started w.startedInit w.doneAt fuel then
      let r := loadExt w.artifact
      some (r.1,
        { s with ds_opt_adam := some r.1,
                 wroteStarted := true, wroteDone := true,
                 compiles := s.compiles + (if r.2 then 1 else 0) })
    else none

/- ### Constructor: `DeepSpeedCPUAdam.__init__` -/

/-- `DeepSpeedCPUAdam.__init__` on a list of parameter groups: store the
defaults on every group, take `opt_id` from the class counter and increment
it, load the op (possibly blocking: `none`), and issue
`create_adam(opt_id, lr, betas[0], betas[1], eps, weight_decay)`. -/
structure Optimizer where
  opt_id : Nat
  groups : List ParamGroup
deriving DecidableEq, Repr

def construct (fuel : Nat) (w : World) (s : ProcState) (cfg : Config)
    (model_params : List (List Param)) :
    Option (Optimizer × ProcState × List KCall) :=
  let oid := s.optimizer_id
  let s1 := { s with optimizer_id := s.optimizer_id + 1 }
  match load_op fuel w s1 with
  | none => none
  | some hs =>
    some ({ opt_id := oid,
            groups := model_params.map fun ps =>
              { slots := ps.map fun p => { p := p, st := none }, cfg := cfg } },
          hs.2,
          [KCall.create oid cfg.lr cfg.beta1 cfg.beta2 cfg.eps cfg.weight_decay])

/-- A sequence of optimizer constructions in one process; a blocked
construction stops the (single-threaded) process, so nothing follows it. -/
def constructN (fuel : Nat) (w : World) :
    List (Config × List (List Param)) → ProcState → List Optimizer × ProcState
  | [], s => ([], s)
  | c :: cs, s =>
    match construct fuel w s c.1 c.2 with
    | none => ([], s)
    | some r =>
      let rr := constructN fuel w cs r.2.1
      (r.1 :: rr.1, rr.2)

/- ### `DeepSpeedCPUAdam.step` -/

/-- `torch.zeros_like(t, device='cpu')`: a freshly allocated (identity
`fresh`) zero-filled buffer with the shape and dtype of `t`, in host
memory. -/
def zeros_like_cpu (t : Tensor) (fresh : Nat) : Tensor :=
  { tid := fresh, shape := t.shape, dtype := t.dtype, device := Device.cpu,
    data := List.replicate t.data.length 0 }

/-- The state-initialization block of `step`: if the parameter has no state
entry yet, allocate `step := 0` and zero-filled CPU moment buffers shaped
like the parameter (consuming two fresh allocation ids); otherwise reuse the
existing entry. Returns the entry and the next fresh id. -/
def initState (p : Param) (st : Option PState) (nid : Nat) : PState × Nat :=
  match st with
  | some ps => (ps, nid)
  | none =>
    ({ step := 0, exp_avg := zeros_like_cpu p.data nid,
       exp_avg_sq := zeros_like_cpu p.data (nid + 1) }, nid + 2)

/-- Bookkeeping threaded through one `step` call: the fresh-allocation
counter, the number of kernel update calls attempted so far (indexing the
failure oracle), the trace of native-module calls, and whether a Python
exception has been raised (after which the loop body no longer runs). -/
structure Acc where
  nextId : Nat
  calls : Nat
  trace : List KCall
  err : Bool
deriving Repr

/-- The body of the per-parameter loop of `step` for the parameter at group
index `gi`, parameter index `pi`. `fail` says whether the i-th kernel update
call of this `step` call raises; `fpMode` is whether `fp16_param_groups` was
supplied and `slot0` the result of looking up its entry for this parameter
(`none` = IndexError). Mirrors the source: skip when `p.grad is None`;
lazily initialize state; increment the step counter; then invoke
`adam_update_copy` or `adam_update`, writing the kernel outputs in place. -/
def procParam (K : Kernel) (fail : Nat → Bool) (oid gi pi : Nat) (fpMode : Bool)
    (s : Slot) (slot0 : Option Tensor) (a : Acc) : Slot × Option Tensor × Acc :=
  if a.err then (s, slot0, a) else
  match s.p.grad with
  | none => (s, slot0, a)
  | some g =>
    let r0 := initState s.p s.st a.nextId
    let ps1 : PState := { r0.1 with step := r0.1.step + 1 }
    let a1 : Acc := { a with nextId := r0.2 }
    if fpMode then
      match slot0 with
      | none => (⟨s.p, some ps1⟩, none, { a1 with err := true })
      | some sh =>
        if fail a1.calls then
          (⟨s.p, some ps1⟩, some sh, { a1 with calls := a1.calls + 1, err := true })
        else
          let r := K.updCopy oid s.p.data.data g.data ps1.exp_avg.data ps1.exp_avg_sq.data sh.data
          (⟨{ data := { s.p.data with data := r.1 }, grad := s.p.grad },
             some { ps1 with exp_avg := { ps1.exp_avg with data := r.2.1 },
                             exp_avg_sq := { ps1.exp_avg_sq with data := r.2.2.1 } }⟩,
           some { sh with data := r.2.2.2 },
           { a1 with calls := a1.calls + 1,
                     trace := a1.trace ++
                       [KCall.update_copy gi pi oid s.p.data g ps1.exp_avg ps1.exp_avg_sq sh] })
    else
      if fail a1.calls then
        (⟨s.p, some ps1⟩, slot0, { a1 with calls := a1.calls + 1, err := true })
      else
        let r := K.upd oid s.p.data.data g.data ps1.exp_avg.data ps1.exp_avg_sq.data
        (⟨{ data := { s.p.data with data := r.1 }, grad := s.p.grad },
           some { ps1 with exp_avg := { ps1.exp_avg with data := r.2.1 },
                           exp_avg_sq := { ps1.exp_avg_sq with data := r.2.2 } }⟩,
         slot0,
         { a1 with calls := a1.calls + 1,
                   trace := a1.trace ++
                     [KCall.update gi pi oid s.p.data g ps1.exp_avg ps1.exp_avg_sq] })

/-- Look up index `i` of an optional list (`none` both when the list is
absent and when the index is out of range, the latter an IndexError site). -/
def optAt {α : Type} (f : Option (List α)) (i : Nat) : Option α :=
  f.bind fun l => l[i]?

/-- Write an entry back at index `i` of an optional list (no-op when either
side is absent). -/
def optSet {α : Type} (f : Option (List α)) (i : Nat) (o : Option α) : Option (List α) :=
  match f, o with
  | some l, some t => some (l.set i t)
  | f, _ => f

/-- The inner loop of `step` over `enumerate(group['params'])`, starting at
parameter index `pi`, threading the group's fp16 row (written back in place)
and the bookkeeping accumulator. -/
def stepParams (K : Kernel) (fail : Nat → Bool) (oid gi : Nat) (fpMode : Bool) :
    List Slot → Nat → Option (List Tensor) → Acc →
    List Slot × Option (List Tensor) × Acc
  | [], _, fpg, a => ([], fpg, a)
  | s :: rest, pi, fpg, a =>
    let r := procParam K fail oid gi pi fpMode s (optAt fpg pi) a
    let rr := stepParams K fail oid gi fpMode rest (pi + 1) (optSet fpg pi r.2.1) r.2.2
    (r.1 :: rr.1, rr.2.1, rr.2.2)

/-- The outer loop of `step` over `enumerate(self.param_groups)`, starting at
group index `gi`. -/
def stepGroups (K : Kernel) (fail : Nat → Bool) (oid : Nat) (fpMode : Bool) :
    List ParamGroup → Nat → Option (List (List Tensor)) → Acc →
    List ParamGroup × Option (List (List Tensor)) × Acc
  | [], _, fp, a => ([], fp, a)
  | g :: rest, gi, fp, a =>
    let r := stepParams K fail oid gi fpMode g.slots 0 (optAt fp gi) a
    let rr := stepGroups K fail oid fpMode rest (gi + 1) (optSet fp gi r.2.1) r.2.2
    ({ slots := r.1, cfg := g.cfg } :: rr.1, rr.2.1, rr.2.2)

/-- Result of one `step(closure=None, fp16_param_groups=...)` call. -/
structure StepOut where
  groups : List ParamGroup
  fp16 : Option (List (List Tensor))
  trace : List KCall
  err : Bool
  nextId : Nat
deriving Repr

/-- `DeepSpeedCPUAdam.step` (without closure; the loss plumbing is
orthogonal to every claim below): walk the groups in order, parameters in
order, as in the source. `nid` seeds fresh buffer identities. -/
def step (K : Kernel) (fail : Nat → Bool) (oid : Nat) (groups : List ParamGroup)
    (fp16 : Option (List (List Tensor))) (nid : Nat) : StepOut :=
  let r := stepGroups K fail oid fp16.isSome groups 0 fp16
    { nextId := nid, calls := 0, trace := [], err := false }
  { groups := r.1, fp16 := r.2.1, trace := r.2.2.trace, err := r.2.2.err,
    nextId := r.2.2.nextId }

/- ### Sequences of `step` calls -/

/-- One scheduled `step` call: which gradient (if any) the caller attached to
each parameter before the call, the `fp16_param_groups` argument, and the
kernel-failure oracle for this call. -/
structure CallSpec where
  grads : List (List (Option Tensor))
  fp16 : Option (List (List Tensor))
  fail : Nat → Bool

/-- The gradient the schedule attaches to parameter `(gi, pi)`. -/
def gradAt (gs : List (List (Option Tensor))) (gi pi : Nat) : Option Tensor :=
  match gs[gi]? with
  | none => none
  | some row => (row[pi]?).join

/-- Install the scheduled gradients on one group's parameters (positions
beyond the schedule get `grad = None`). -/
def installRow (gs : List (Option Tensor)) : List Slot → List Slot
  | [] => []
  | s :: rest =>
    { s with p := { s.p with grad := gs.headD none } } :: installRow gs.tail rest

/-- Install the scheduled gradients on all parameter groups. -/
def installGrads (gs : List (List (Option Tensor))) : List ParamGroup → List ParamGroup
  | [] => []
  | g :: rest =>
    { g with slots := installRow (gs.headD []) g.slots } :: installGrads gs.tail rest

/-- Process state carried between `step` calls. -/
structure RunState where
  groups : List ParamGroup
  nextId : Nat
deriving Repr

/-- Run a sequence of `step` calls: before each call the caller installs that
call's gradients; the call's trace, error flag and fp16 output are recorded
per call. -/
def runSteps (K : Kernel) (oid : Nat) :
    List CallSpec → RunState →
    RunState × List (List KCall) × List Bool × List (Option (List (List Tensor)))
  | [], rs => (rs, [], [], [])
  | c :: cs, rs =>
    let so := step K c.fail oid (installGrads c.grads rs.groups) c.fp16 rs.nextId
    let rr := runSteps K oid cs { groups := so.groups, nextId := so.nextId }
    (rr.1, so.trace :: rr.2.1, so.err :: rr.2.2.1, so.fp16 :: rr.2.2.2)

/-- The number of calls of the schedule in which parameter `(gi, pi)` carried
a non-absent gradient. -/
def countGrads (specs : List CallSpec) (gi pi : Nat) : Nat :=
  (specs.filter fun c => (gradAt c.grads gi pi).isSome).length

/-- The (group index, parameter index) tag of a kernel update trace entry
(`none` for `create`). -/
def tagOf : KCall → Option (Nat × Nat)
  | KCall.update g p _ _ _ _ _ => some (g, p)
  | KCall.update_copy g p _ _ _ _ _ _ => some (g, p)
  | KCall.create _ _ _ _ _ _ => none

/-- Whether a trace entry is a kernel update call for parameter `(gi, pi)`. -/
def isFor (gi pi : Nat) (e : KCall) : Bool :=
  tagOf e == some (gi, pi)

/-- The kernel update calls a trace makes for parameter `(gi, pi)`. -/
def callsFor (gi pi : Nat) (tr : List KCall) : List KCall :=
  tr.filter (isFor gi pi)

/-- The number of gradient-bearing parameters in a slot list (= number of
kernel update calls an error-free pass over it makes). -/
def gradCnt (xs : List Slot) : Nat :=
  (xs.filter fun s => s.p.grad.isSome).length

/-- Two tensors are the same buffer (same allocation identity, shape, dtype
and device); only the contents may have been written in place. -/
def sameBuf (t t' : Tensor) : Prop :=
  t'.tid = t.tid ∧ t'.shape = t.shape ∧ t'.dtype = t.dtype ∧ t'.device = t.device

/- ### Characterizing one loop iteration -/

/-- The step count stored for a slot (0 when no state entry exists yet). -/
def oldStep (s : Slot) : Nat :=
  match s.st with
  | some ps => ps.step
  | none => 0

/-- The state entry as it stands at the kernel call: after the lazy
initialization and the step-counter increment. -/
def ps1of (s : Slot) (nid : Nat) : PState :=
  { (initState s.p s.st nid).1 with step := (initState s.p s.st nid).1.step + 1 }

/-- The fresh-id counter after the lazy initialization. -/
def nid1of (s : Slot) (nid : Nat) : Nat :=
  (initState s.p s.st nid).2

/-- The slot after a successful `adam_update` call. -/
def updSlot (K : Kernel) (oid : Nat) (s : Slot) (g : Tensor) (nid : Nat) : Slot :=
  let ps1 := ps1of s nid
  let r := K.upd oid s.p.data.data g.data ps1.exp_avg.data ps1.exp_avg_sq.data
  ⟨{ data := { s.p.data with data := r.1 }, grad := s.p.grad },
   some { ps1 with exp_avg := { ps1.exp_avg with data := r.2.1 },
                   exp_avg_sq := { ps1.exp_avg_sq with data := r.2.2 } }⟩

/-- The slot after a successful `adam_update_copy` call. -/
def updSlotC (K : Kernel) (oid : Nat) (s : Slot) (g sh : Tensor) (nid : Nat) : Slot :=
  let ps1 := ps1of s nid
  let r := K.updCopy oid s.p.data.data g.data ps1.exp_avg.data ps1.exp_avg_sq.data sh.data
  ⟨{ data := { s.p.data with data := r.1 }, grad := s.p.grad },
   some { ps1 with exp_avg := { ps1.exp_avg with data := r.2.1 },
                   exp_avg_sq := { ps1.exp_avg_sq with data := r.2.2.1 } }⟩

/-- The shadow buffer after a successful `adam_update_copy` call: the same
buffer, its contents overwritten with the kernel's shadow output. -/
def shOut (K : Kernel) (oid : Nat) (s : Slot) (g sh : Tensor) (nid : Nat) : Tensor :=
  let ps1 := ps1of s nid
  { sh with
    data := (K.updCopy oid s.p.data.data g.data ps1.exp_avg.data ps1.exp_avg_sq.data sh.data).2.2.2 }

/-- The trace entry of a successful `adam_update` call. -/
def entryOf (gi pi oid : Nat) (s : Slot) (g : Tensor) (nid : Nat) : KCall :=
  KCall.update gi pi oid s.p.data g (ps1of s nid).exp_avg (ps1of s nid).exp_avg_sq

/-- The trace entry of a successful `adam_update_copy` call. -/
def entryOfC (gi pi oid : Nat) (s : Slot) (g sh : Tensor) (nid : Nat) : KCall :=
  KCall.update_copy gi pi oid s.p.data g (ps1of s nid).exp_avg (ps1of s nid).exp_avg_sq sh

lemma ps1of_some (s : Slot) (ps : PState) (h : s.st = some ps) (nid : Nat) :
    ps1of s nid = { ps with step := ps.step + 1 } ∧ nid1of s nid = nid := by
  constructor <;> simp [ps1of, nid1of, initState, h]

lemma ps1of_none (s : Slot) (h : s.st = none) (nid : Nat) :
    ps1of s nid = { step := 1, exp_avg := zeros_like_cpu s.p.data nid,
                    exp_avg_sq := zeros_like_cpu s.p.data (nid + 1) } ∧
    nid1of s nid = nid + 2 := by
  constructor <;> simp [ps1of, nid1of, initState, h]

lemma ps1of_step (s : Slot) (nid : Nat) : (ps1of s nid).step = oldStep s + 1 := by
  rcases h : s.st with _ | ps
  · simp [ps1of, initState, h, oldStep]
  · simp [ps1of, initState, h, oldStep]

lemma pp_err (K : Kernel) (fail : Nat → Bool) (oid gi pi : Nat) (fpMode : Bool)
    (s : Slot) (slot0 : Option Tensor) (a : Acc) (h : a.err = true) :
    procParam K fail oid gi pi fpMode s slot0 a = (s, slot0, a) := by
  simp [procParam, h]

lemma pp_err_mono (K : Kernel) (fail : Nat → Bool) (oid gi pi : Nat) (fpMode : Bool)
    (s : Slot) (slot0 : Option Tensor) (a : Acc)
    (h : (procParam K fail oid gi pi fpMode s slot0 a).2.2.err = false) : a.err = false := by
  by_cases ha : a.err = true
  · rw [pp_err K fail oid gi pi fpMode s slot0 a ha] at h
    exact absurd h (by simp [ha])
  · simpa using ha

lemma pp_nograd (K : Kernel) (fail : Nat → Bool) (oid gi pi : Nat) (fpMode : Bool)
    (s : Slot) (slot0 : Option Tensor) (a : Acc) (he : a.err = false)
    (hg : s.p.grad = none) :
    procParam K fail oid gi pi fpMode s slot0 a = (s, slot0, a) := by
  simp [procParam, he, hg]

/-- Full description of a loop iteration that completes without raising. -/
lemma pp_ok (K : Kernel) (fail : Nat → Bool) (oid gi pi : Nat) (fpMode : Bool)
    (s : Slot) (slot0 : Option Tensor) (a : Acc) (g : Tensor)
    (he : a.err = false) (hg : s.p.grad = some g)
    (hok : (procParam K fail oid gi pi fpMode s slot0 a).2.2.err = false) :
    fail a.calls = false ∧
    ((fpMode = false ∧
       procParam K fail oid gi pi fpMode s slot0 a =
         (updSlot K oid s g a.nextId, slot0,
          { a with nextId := nid1of s a.nextId, calls := a.calls + 1,
                   trace := a.trace ++ [entryOf gi pi oid s g a.nextId] })) ∨
     (∃ sh, fpMode = true ∧ slot0 = some sh ∧
       procParam K fail oid gi pi fpMode s slot0 a =
         (updSlotC K oid s g sh a.nextId, some (shOut K oid s g sh a.nextId),
          { a with nextId := nid1of s a.nextId, calls := a.calls + 1,
                   trace := a.trace ++ [entryOfC gi pi oid s g sh a.nextId] }))) := by
  by_cases hf : fail a.calls = true
  · exfalso
    rcases hfp : fpMode with _ | _
    · simp [procParam, he, hg, hfp, hf] at hok
    · rcases hsl : slot0 with _ | sh
      · simp [procParam, he, hg, hfp, hsl] at hok
      · simp [procParam, he, hg, hfp, hsl, hf] at hok
  · have hf' : fail a.calls = false := by simpa using hf
    refine ⟨hf', ?_⟩
    rcases hfp : fpMode with _ | _
    · left
      refine ⟨rfl, ?_⟩
      simp [procParam, he, hg, hf', updSlot, entryOf, ps1of, nid1of]
    · rcases hsl : slot0 with _ | sh
      · exfalso
        simp [procParam, he, hg, hfp, hsl] at hok
      · right
        refine ⟨sh, rfl, rfl, ?_⟩
        simp [procParam, he, hg, hf', updSlotC, shOut, entryOfC, ps1of, nid1of]

/- ### Lookup and trace bookkeeping lemmas -/

lemma list_set_same {α : Type} :
    ∀ (l : List α) (i : Nat) (t : α), l[i]? = some t → l.set i t = l := by
  intro l
  induction l with
  | nil => intro i t h; cases h
  | cons x xs ih =>
    intro i t h
    cases i with
    | zero =>
      simp only [List.getElem?_cons_zero, Option.some.injEq] at h
      simp [h]
    | succ n =>
      simp only [List.getElem?_cons_succ] at h
      simp [ih n t h]

lemma optSet_none {α : Type} (f : Option (List α)) (i : Nat) :
    optSet f i none = f := by
  rcases f with _ | l <;> rfl

lemma optAt_none {α : Type} (i : Nat) : optAt (none : Option (List α)) i = none := rfl

lemma optSet_at_none {α : Type} (f : Option (List α)) (i : Nat) (o : Option α)
    (h : optAt f i = none) : optSet f i o = f := by
  rcases f with _ | l
  · rcases o with _ | t <;> rfl
  · rcases o with _ | t
    · rfl
    · simp only [optAt, Option.bind_some] at h
      simp [optSet, List.set_eq_of_length_le (by simpa using List.getElem?_eq_none_iff.mp h)]

lemma optSet_same {α : Type} (f : Option (List α)) (i : Nat) (t : α)
    (h : optAt f i = some t) : optSet f i (some t) = f := by
  rcases f with _ | l
  · cases h
  · simp only [optAt, Option.bind_some] at h
    simp [optSet, list_set_same l i t h]

lemma optAt_set_ne {α : Type} (f : Option (List α)) (i j : Nat) (o : Option α)
    (hij : i ≠ j) : optAt (optSet f i o) j = optAt f j := by
  rcases f with _ | l
  · rcases o with _ | t <;> rfl
  · rcases o with _ | t
    · rfl
    · simp [optAt, optSet, List.getElem?_set_ne hij]

lemma optAt_set_some {α : Type} (f : Option (List α)) (i : Nat) (t0 t : α)
    (h : optAt f i = some t0) : optAt (optSet f i (some t)) i = some t := by
  rcases f with _ | l
  · cases h
  · simp only [optAt, Option.bind_some] at h ⊢
    have hlen : i < l.length := by
      rcases List.getElem?_eq_some.mp h with ⟨hl, _⟩
      exact hl
    simp [optSet, List.getElem?_set_self (by simpa using hlen)]

lemma callsFor_append (gi pi : Nat) (t1 t2 : List KCall) :
    callsFor gi pi (t1 ++ t2) = callsFor gi pi t1 ++ callsFor gi pi t2 := by
  simp [callsFor]

lemma isFor_true_iff (gi pi : Nat) (e : KCall) :
    isFor gi pi e = true ↔ tagOf e = some (gi, pi) := by
  simp [isFor]

lemma callsFor_nil_of_ne (gi pi : Nat) (Δ : List KCall)
    (h : ∀ e ∈ Δ, tagOf e ≠ some (gi, pi)) :
    callsFor gi pi Δ = [] := by
  refine List.filter_eq_nil_iff.mpr ?_
  intro e he hf
  exact h e he ((isFor_true_iff gi pi e).mp hf)

lemma tagOf_entryOf (gi pi oid : Nat) (s : Slot) (g : Tensor) (nid : Nat) :
    tagOf (entryOf gi pi oid s g nid) = some (gi, pi) := rfl

lemma tagOf_entryOfC (gi pi oid : Nat) (s : Slot) (g sh : Tensor) (nid : Nat) :
    tagOf (entryOfC gi pi oid s g sh nid) = some (gi, pi) := rfl

lemma callsFor_entryOf (gi pi oid : Nat) (s : Slot) (g : Tensor) (nid : Nat) :
    callsFor gi pi [entryOf gi pi oid s g nid] = [entryOf gi pi oid s g nid] := by
  simp [callsFor, isFor, tagOf_entryOf]

lemma callsFor_entryOfC (gi pi oid : Nat) (s : Slot) (g sh : Tensor) (nid : Nat) :
    callsFor gi pi [entryOfC gi pi oid s g sh nid] = [entryOfC gi pi oid s g sh nid] := by
  simp [callsFor, isFor, tagOf_entryOfC]

/-- A loop iteration either leaves the trace unchanged or appends exactly one
update entry tagged with its own (group, parameter) indices. -/
lemma pp_trace_delta (K : Kernel) (fail : Nat → Bool) (oid gi pi : Nat) (fpMode : Bool)
    (s : Slot) (slot0 : Option Tensor) (a : Acc) :
    (procParam K fail oid gi pi fpMode s slot0 a).2.2.trace = a.trace ∨
    ∃ e, (procParam K fail oid gi pi fpMode s slot0 a).2.2.trace = a.trace ++ [e] ∧
      tagOf e = some (gi, pi) := by
  by_cases ha : a.err = true
  · left
    rw [pp_err K fail oid gi pi fpMode s slot0 a ha]
  · have he : a.err = false := by simpa using ha
    rcases hg : s.p.grad with _ | g
    · left
      rw [pp_nograd K fail oid gi pi fpMode s slot0 a he hg]
    · rcases hfp : fpMode with _ | _
      · by_cases hf : fail a.calls = true
        · left
          simp [procParam, he, hg, hf]
        · right
          refine ⟨entryOf gi pi oid s g a.nextId, ?_, tagOf_entryOf gi pi oid s g a.nextId⟩
          simp [procParam, he, hg, eq_false_intro hf, entryOf, ps1of]
      · rcases hsl : slot0 with _ | sh
        · left
          simp [procParam, he, hg, hsl]
        · by_cases hf : fail a.calls = true
          · left
            simp [procParam, he, hg, hsl, hf]
          · right
            refine ⟨entryOfC gi pi oid s g sh a.nextId, ?_,
              tagOf_entryOfC gi pi oid s g sh a.nextId⟩
            simp [procParam, he, hg, hsl, eq_false_intro hf, entryOfC, ps1of]

/- ### The inner loop: fold-level lemmas -/

lemma optSet_at_self {α : Type} (fpg : Option (List α)) (pi : Nat) :
    optSet fpg pi (optAt fpg pi) = fpg := by
  rcases hat : optAt fpg pi with _ | t
  · exact optSet_none fpg pi
  · exact optSet_same fpg pi t hat

/-- Once the error flag is set, the remaining iterations change nothing
(the Python exception aborts the loop). -/
lemma sp_passthrough (K : Kernel) (fail : Nat → Bool) (oid gi : Nat) (fpMode : Bool) :
    ∀ (xs : List Slot) (pi : Nat) (fpg : Option (List Tensor)) (a : Acc),
      a.err = true →
      stepParams K fail oid gi fpMode xs pi fpg a = (xs, fpg, a) := by
  intro xs
  induction xs with
  | nil => intro pi fpg a ha; rfl
  | cons s rest ih =>
    intro pi fpg a ha
    have hr := pp_err K fail oid gi pi fpMode s (optAt fpg pi) a ha
    simp only [stepParams, hr, optSet_at_self]
    rw [ih (pi + 1) fpg a ha]

lemma sp_err_mono (K : Kernel) (fail : Nat → Bool) (oid gi : Nat) (fpMode : Bool)
    (xs : List Slot) (pi : Nat) (fpg : Option (List Tensor)) (a : Acc)
    (h : (stepParams K fail oid gi fpMode xs pi fpg a).2.2.err = false) :
    a.err = false := by
  by_cases ha : a.err = true
  · rw [sp_passthrough K fail oid gi fpMode xs pi fpg a ha] at h
    exact absurd h (by simp [ha])
  · simpa using ha

/-- The inner loop appends trace entries whose tags are this group's index
and parameter indices at or after the start index. -/
lemma sp_trace_delta (K : Kernel) (fail : Nat → Bool) (oid gi : Nat) (fpMode : Bool) :
    ∀ (xs : List Slot) (pi : Nat) (fpg : Option (List Tensor)) (a : Acc),
      ∃ Δ, (stepParams K fail oid gi fpMode xs pi fpg a).2.2.trace = a.trace ++ Δ ∧
        ∀ e ∈ Δ, ∃ q, pi ≤ q ∧ tagOf e = some (gi, q) := by
  intro xs
  induction xs with
  | nil => intro pi fpg a; exact ⟨[], by simp [stepParams], by simp⟩
  | cons s rest ih =>
    intro pi fpg a
    obtain ⟨Δr, hΔr, hΔrtags⟩ :=
      ih (pi + 1) (optSet fpg pi (procParam K fail oid gi pi fpMode s (optAt fpg pi) a).2.1)
        (procParam K fail oid gi pi fpMode s (optAt fpg pi) a).2.2
    rcases pp_trace_delta K fail oid gi pi fpMode s (optAt fpg pi) a with hh | ⟨e, hh, htag⟩
    · refine ⟨Δr, ?_, ?_⟩
      · simp only [stepParams]
        rw [hΔr, hh]
      · intro e he
        obtain ⟨q, hq, ht⟩ := hΔrtags e he
        exact ⟨q, by omega, ht⟩
    · refine ⟨e :: Δr, ?_, ?_⟩
      · simp only [stepParams]
        rw [hΔr, hh]
        simp
      · intro e' he'
        rcases List.mem_cons.mp he' with rfl | he'
        · exact ⟨pi, le_refl pi, htag⟩
        · obtain ⟨q, hq, ht⟩ := hΔrtags e' he'
          exact ⟨q, by omega, ht⟩

/-- The inner loop only writes fp16 entries at parameter indices at or after
its start index. -/
lemma sp_fp_lo (K : Kernel) (fail : Nat → Bool) (oid gi : Nat) (fpMode : Bool) :
    ∀ (xs : List Slot) (pi : Nat) (fpg : Option (List Tensor)) (a : Acc) (j : Nat),
      j < pi →
      optAt (stepParams K fail oid gi fpMode xs pi fpg a).2.1 j = optAt fpg j := by
  intro xs
  induction xs with
  | nil => intro pi fpg a j hj; rfl
  | cons s rest ih =>
    intro pi fpg a j hj
    simp only [stepParams]
    rw [ih (pi + 1)
      (optSet fpg pi (procParam K fail oid gi pi fpMode s (optAt fpg pi) a).2.1)
      (procParam K fail oid gi pi fpMode s (optAt fpg pi) a).2.2 j (by omega)]
    exact optAt_set_ne fpg pi j _ (by omega)

/-- Per-position description of an error-free inner loop pass: parameters
without a gradient are untouched (no state, no trace entry, fp16 slot
unchanged); parameters with a gradient get exactly one kernel update call,
`adam_update` without fp16 (slot unchanged) and `adam_update_copy` with fp16
(shadow slot written with the kernel's shadow output). -/
lemma sp_get (K : Kernel) (fail : Nat → Bool) (oid gi : Nat) (fpMode : Bool) :
    ∀ (xs : List Slot) (pi : Nat) (fpg : Option (List Tensor)) (a : Acc)
      (ys : List Slot) (fpo : Option (List Tensor)) (b : Acc),
      stepParams K fail oid gi fpMode xs pi fpg a = (ys, fpo, b) →
      a.err = false → b.err = false →
      ∀ (k : Nat) (s : Slot), xs[k]? = some s →
        ∃ s', ys[k]? = some s' ∧
          ((s.p.grad = none ∧ s' = s ∧
            callsFor gi (pi + k) b.trace = callsFor gi (pi + k) a.trace ∧
            optAt fpo (pi + k) = optAt fpg (pi + k)) ∨
           (∃ g nid, s.p.grad = some g ∧
            ((fpMode = false ∧ s' = updSlot K oid s g nid ∧
              callsFor gi (pi + k) b.trace =
                callsFor gi (pi + k) a.trace ++ [entryOf gi (pi + k) oid s g nid] ∧
              optAt fpo (pi + k) = optAt fpg (pi + k)) ∨
             (∃ sh, fpMode = true ∧ optAt fpg (pi + k) = some sh ∧
              s' = updSlotC K oid s g sh nid ∧
              callsFor gi (pi + k) b.trace =
                callsFor gi (pi + k) a.trace ++ [entryOfC gi (pi + k) oid s g sh nid] ∧
              optAt fpo (pi + k) = some (shOut K oid s g sh nid))))) := by
  intro xs
  induction xs with
  | nil => intro pi fpg a ys fpo b heq ha hb k s hk; cases hk
  | cons s0 rest ih =>
    intro pi fpg a ys fpo b heq ha hb k s hk
    simp only [stepParams] at heq
    injection heq with h1 h23
    injection h23 with h2 h3
    subst h1 h2 h3
    have hrest_err : (procParam K fail oid gi pi fpMode s0 (optAt fpg pi) a).2.2.err = false := by
      apply sp_err_mono K fail oid gi fpMode rest (pi + 1)
        (optSet fpg pi (procParam K fail oid gi pi fpMode s0 (optAt fpg pi) a).2.1)
        (procParam K fail oid gi pi fpMode s0 (optAt fpg pi) a).2.2
      exact hb
    cases k with
    | zero =>
      simp only [List.getElem?_cons_zero, Option.some.injEq] at hk
      rw [← hk]
      refine ⟨(procParam K fail oid gi pi fpMode s0 (optAt fpg pi) a).1,
        by simp, ?_⟩
      obtain ⟨Δr, hΔr, hΔrtags⟩ := sp_trace_delta K fail oid gi fpMode rest (pi + 1)
        (optSet fpg pi (procParam K fail oid gi pi fpMode s0 (optAt fpg pi) a).2.1)
        (procParam K fail oid gi pi fpMode s0 (optAt fpg pi) a).2.2
      have hΔrkill : callsFor gi pi Δr = [] := by
        refine callsFor_nil_of_ne gi pi Δr ?_
        intro e he hcon
        obtain ⟨q, hq, ht⟩ := hΔrtags e he
        rw [ht] at hcon
        injection hcon with hcon'
        have : q = pi := congrArg Prod.snd hcon'
        omega
      have hfpo : optAt (stepParams K fail oid gi fpMode rest (pi + 1)
            (optSet fpg pi (procParam K fail oid gi pi fpMode s0 (optAt fpg pi) a).2.1)
            (procParam K fail oid gi pi fpMode s0 (optAt fpg pi) a).2.2).2.1 pi =
          optAt (optSet fpg pi (procParam K fail oid gi pi fpMode s0 (optAt fpg pi) a).2.1) pi :=
        sp_fp_lo K fail oid gi fpMode rest (pi + 1)
          (optSet fpg pi (procParam K fail oid gi pi fpMode s0 (optAt fpg pi) a).2.1)
          (procParam K fail oid gi pi fpMode s0 (optAt fpg pi) a).2.2 pi (by omega)
      rcases hg : s0.p.grad with _ | g
      · left
        have hr := pp_nograd K fail oid gi pi fpMode s0 (optAt fpg pi) a ha hg
        rw [hr] at hΔr hfpo
        simp only [optSet_at_self] at hΔr hfpo
        refine ⟨by simp [hg], ?_, ?_, ?_⟩
        · rw [hr]
        · simp only [Nat.add_zero]
          rw [hr]
          simp only [optSet_at_self]
          rw [hΔr, callsFor_append, hΔrkill, List.append_nil]
        · simp only [Nat.add_zero]
          rw [hr]
          simp only [optSet_at_self]
          exact hfpo
      · right
        obtain ⟨hfail, hcase⟩ :=
          pp_ok K fail oid gi pi fpMode s0 (optAt fpg pi) a g ha hg hrest_err
        rcases hcase with ⟨hfp, hr⟩ | ⟨sh, hfp, hsl, hr⟩
        · rw [hr] at hΔr hfpo
          simp only [optSet_at_self] at hΔr hfpo
          refine ⟨g, a.nextId, by simp [hg], Or.inl ⟨hfp, ?_, ?_, ?_⟩⟩
          · rw [hr]
          · simp only [Nat.add_zero]
            rw [hr]
            simp only [optSet_at_self]
            rw [hΔr, callsFor_append, callsFor_append, hΔrkill, List.append_nil,
              callsFor_entryOf]
          · simp only [Nat.add_zero]
            rw [hr]
            simp only [optSet_at_self]
            exact hfpo
        · rw [hr] at hΔr hfpo
          simp only [optSet_at_self] at hΔr hfpo
          have hw : optAt (optSet fpg pi (some (shOut K oid s0 g sh a.nextId))) pi =
              some (shOut K oid s0 g sh a.nextId) :=
            optAt_set_some fpg pi sh (shOut K oid s0 g sh a.nextId) hsl
          refine ⟨g, a.nextId, by simp [hg],
            Or.inr ⟨sh, hfp, by simpa using hsl, ?_, ?_, ?_⟩⟩
          · rw [hr]
          · simp only [Nat.add_zero]
            rw [hr]
            simp only [optSet_at_self]
            rw [hΔr, callsFor_append, callsFor_append, hΔrkill, List.append_nil,
              callsFor_entryOfC]
          · simp only [Nat.add_zero]
            rw [hr]
            simp only [optSet_at_self]
            rw [hfpo, hw]
    | succ k' =>
      simp only [List.getElem?_cons_succ] at hk
      have hrec := ih (pi + 1)
        (optSet fpg pi (procParam K fail oid gi pi fpMode s0 (optAt fpg pi) a).2.1)
        (procParam K fail oid gi pi fpMode s0 (optAt fpg pi) a).2.2
        _ _ _ rfl hrest_err hb k' s hk
      obtain ⟨s', hs', hdesc⟩ := hrec
      have hidx : pi + 1 + k' = pi + (k' + 1) := by omega
      have hne : pi ≠ pi + 1 + k' := by omega
      refine ⟨s', by simpa using hs', ?_⟩
      rw [hidx] at hdesc
      have hset : optAt (optSet fpg pi
          (procParam K fail oid gi pi fpMode s0 (optAt fpg pi) a).2.1) (pi + (k' + 1)) =
          optAt fpg (pi + (k' + 1)) := by
        rw [← hidx]
        exact optAt_set_ne fpg pi (pi + 1 + k') _ hne
      have htr : callsFor gi (pi + (k' + 1))
          (procParam K fail oid gi pi fpMode s0 (optAt fpg pi) a).2.2.trace =
          callsFor gi (pi + (k' + 1)) a.trace := by
        rcases pp_trace_delta K fail oid gi pi fpMode s0 (optAt fpg pi) a with hh | ⟨e, hh, htag⟩
        · rw [hh]
        · rw [hh, callsFor_append]
          have : callsFor gi (pi + (k' + 1)) [e] = [] := by
            refine callsFor_nil_of_ne gi (pi + (k' + 1)) [e] ?_
            intro e' he' hcon
            rcases List.mem_singleton.mp he' with rfl
            rw [htag] at hcon
            injection hcon with hcon'
            have : pi = pi + (k' + 1) := congrArg Prod.snd hcon'
            omega
          rw [this, List.append_nil]
      rcases hdesc with ⟨h1, h2, h3, h4⟩ | ⟨g, nid, h1, hcase⟩
      · exact Or.inl ⟨h1, h2, by rw [h3, htr], by rw [h4, hset]⟩
      · refine Or.inr ⟨g, nid, h1, ?_⟩
        rcases hcase with ⟨hfp, h2, h3, h4⟩ | ⟨sh, hfp, hsl, h2, h3, h4⟩
        · exact Or.inl ⟨hfp, h2, by rw [h3, htr], by rw [h4, hset]⟩
        · exact Or.inr ⟨sh, hfp, by rw [← hset]; exact hsl, h2, by rw [h3, htr], h4⟩

/- ### The outer loop: fold-level lemmas -/

/-- Without an fp16 row, no fp16 row is produced. -/
lemma sp_fp_none (K : Kernel) (fail : Nat → Bool) (oid gi : Nat) (fpMode : Bool) :
    ∀ (xs : List Slot) (pi : Nat) (a : Acc),
      (stepParams K fail oid gi fpMode xs pi none a).2.1 = none := by
  intro xs
  induction xs with
  | nil => intro pi a; rfl
  | cons s rest ih =>
    intro pi a
    simp only [stepParams]
    have : optSet (none : Option (List Tensor)) pi
        (procParam K fail oid gi pi fpMode s (optAt none pi) a).2.1 = none := by
      rcases hh : (procParam K fail oid gi pi fpMode s (optAt none pi) a).2.1 with _ | t <;> rfl
    rw [this]
    exact ih (pi + 1) _

/-- With an fp16 row present, an fp16 row is produced. -/
lemma sp_fp_some (K : Kernel) (fail : Nat → Bool) (oid gi : Nat) (fpMode : Bool) :
    ∀ (xs : List Slot) (pi : Nat) (row : List Tensor) (a : Acc),
      ∃ row', (stepParams K fail oid gi fpMode xs pi (some row) a).2.1 = some row' := by
  intro xs
  induction xs with
  | nil => intro pi row a; exact ⟨row, rfl⟩
  | cons s rest ih =>
    intro pi row a
    simp only [stepParams]
    rcases hh : (procParam K fail oid gi pi fpMode s (optAt (some row) pi) a).2.1 with _ | t
    · exact ih (pi + 1) row _
    · exact ih (pi + 1) (row.set pi t) _

/-- Once the error flag is set, the remaining groups change nothing. -/
lemma sg_passthrough (K : Kernel) (fail : Nat → Bool) (oid : Nat) (fpMode : Bool) :
    ∀ (gs : List ParamGroup) (gi : Nat) (fp : Option (List (List Tensor))) (a : Acc),
      a.err = true →
      stepGroups K fail oid fpMode gs gi fp a = (gs, fp, a) := by
  intro gs
  induction gs with
  | nil => intro gi fp a ha; rfl
  | cons g rest ih =>
    intro gi fp a ha
    have hr := sp_passthrough K fail oid gi fpMode g.slots 0 (optAt fp gi) a ha
    simp only [stepGroups, hr, optSet_at_self]
    rw [ih (gi + 1) fp a ha]

lemma sg_err_mono (K : Kernel) (fail : Nat → Bool) (oid : Nat) (fpMode : Bool)
    (gs : List ParamGroup) (gi : Nat) (fp : Option (List (List Tensor))) (a : Acc)
    (h : (stepGroups K fail oid fpMode gs gi fp a).2.2.err = false) :
    a.err = false := by
  by_cases ha : a.err = true
  · rw [sg_passthrough K fail oid fpMode gs gi fp a ha] at h
    exact absurd h (by simp [ha])
  · simpa using ha

/-- The outer loop appends trace entries whose group tags are at or after the
start index. -/
lemma sg_trace_delta (K : Kernel) (fail : Nat → Bool) (oid : Nat) (fpMode : Bool) :
    ∀ (gs : List ParamGroup) (gi : Nat) (fp : Option (List (List Tensor))) (a : Acc),
      ∃ Δ, (stepGroups K fail oid fpMode gs gi fp a).2.2.trace = a.trace ++ Δ ∧
        ∀ e ∈ Δ, ∃ qg qp, gi ≤ qg ∧ tagOf e = some (qg, qp) := by
  intro gs
  induction gs with
  | nil => intro gi fp a; exact ⟨[], by simp [stepGroups], by simp⟩
  | cons g rest ih =>
    intro gi fp a
    obtain ⟨Δh, hΔh, hΔhtags⟩ := sp_trace_delta K fail oid gi fpMode g.slots 0 (optAt fp gi) a
    obtain ⟨Δr, hΔr, hΔrtags⟩ :=
      ih (gi + 1) (optSet fp gi (stepParams K fail oid gi fpMode g.slots 0 (optAt fp gi) a).2.1)
        (stepParams K fail oid gi fpMode g.slots 0 (optAt fp gi) a).2.2
    refine ⟨Δh ++ Δr, ?_, ?_⟩
    · simp only [stepGroups]
      rw [hΔr, hΔh, List.append_assoc]
    · intro e he
      rcases List.mem_append.mp he with he | he
      · obtain ⟨q, _, ht⟩ := hΔhtags e he
        exact ⟨gi, q, le_refl gi, ht⟩
      · obtain ⟨qg, qp, hq, ht⟩ := hΔrtags e he
        exact ⟨qg, qp, by omega, ht⟩

/-- The outer loop only writes fp16 rows at group indices at or after its
start index. -/
lemma sg_fp_lo (K : Kernel) (fail : Nat → Bool) (oid : Nat) (fpMode : Bool) :
    ∀ (gs : List ParamGroup) (gi : Nat) (fp : Option (List (List Tensor))) (a : Acc) (j : Nat),
      j < gi →
      optAt (stepGroups K fail oid fpMode gs gi fp a).2.1 j = optAt fp j := by
  intro gs
  induction gs with
  | nil => intro gi fp a j hj; rfl
  | cons g rest ih =>
    intro gi fp a j hj
    simp only [stepGroups]
    rw [ih (gi + 1)
      (optSet fp gi (stepParams K fail oid gi fpMode g.slots 0 (optAt fp gi) a).2.1)
      (stepParams K fail oid gi fpMode g.slots 0 (optAt fp gi) a).2.2 j (by omega)]
    exact optAt_set_ne fp gi j _ (by omega)

/-- Per-position description of an error-free `step` walk over all groups:
for parameter `j` of group `k`, the claims of `sp_get`, with the fp16 row
located at group index `k` of `fp16_param_groups`. -/
lemma sg_get (K : Kernel) (fail : Nat → Bool) (oid : Nat) (fpMode : Bool) :
    ∀ (gs : List ParamGroup) (gi : Nat) (fp : Option (List (List Tensor))) (a : Acc)
      (hs : List ParamGroup) (fpo : Option (List (List Tensor))) (b : Acc),
      stepGroups K fail oid fpMode gs gi fp a = (hs, fpo, b) →
      a.err = false → b.err = false →
      ∀ (k : Nat) (g0 : ParamGroup), gs[k]? = some g0 →
        ∃ g1, hs[k]? = some g1 ∧ g1.cfg = g0.cfg ∧
          ∀ (j : Nat) (s : Slot), g0.slots[j]? = some s →
            ∃ s', g1.slots[j]? = some s' ∧
              ((s.p.grad = none ∧ s' = s ∧
                callsFor (gi + k) j b.trace = callsFor (gi + k) j a.trace ∧
                optAt (optAt fpo (gi + k)) j = optAt (optAt fp (gi + k)) j) ∨
               (∃ g nid, s.p.grad = some g ∧
                ((fpMode = false ∧ s' = updSlot K oid s g nid ∧
                  callsFor (gi + k) j b.trace =
                    callsFor (gi + k) j a.trace ++ [entryOf (gi + k) j oid s g nid] ∧
                  optAt (optAt fpo (gi + k)) j = optAt (optAt fp (gi + k)) j) ∨
                 (∃ sh, fpMode = true ∧ optAt (optAt fp (gi + k)) j = some sh ∧
                  s' = updSlotC K oid s g sh nid ∧
                  callsFor (gi + k) j b.trace =
                    callsFor (gi + k) j a.trace ++ [entryOfC (gi + k) j oid s g sh nid] ∧
                  optAt (optAt fpo (gi + k)) j = some (shOut K oid s g sh nid))))) := by
  intro gs
  induction gs with
  | nil => intro gi fp a hs fpo b heq ha hb k g0 hk; cases hk
  | cons g rest ih =>
    intro gi fp a hs fpo b heq ha hb k g0 hk
    simp only [stepGroups] at heq
    injection heq with h1 h23
    injection h23 with h2 h3
    subst h1 h2 h3
    have hrest_err : (stepParams K fail oid gi fpMode g.slots 0 (optAt fp gi) a).2.2.err
        = false := by
      apply sg_err_mono K fail oid fpMode rest (gi + 1)
        (optSet fp gi (stepParams K fail oid gi fpMode g.slots 0 (optAt fp gi) a).2.1)
        (stepParams K fail oid gi fpMode g.slots 0 (optAt fp gi) a).2.2
      exact hb
    cases k with
    | zero =>
      simp only [List.getElem?_cons_zero, Option.some.injEq] at hk
      rw [← hk]
      refine ⟨{ slots := (stepParams K fail oid gi fpMode g.slots 0 (optAt fp gi) a).1,
                cfg := g.cfg }, by simp, rfl, ?_⟩
      have h2 : optAt (stepGroups K fail oid fpMode rest (gi + 1)
            (optSet fp gi (stepParams K fail oid gi fpMode g.slots 0 (optAt fp gi) a).2.1)
            (stepParams K fail oid gi fpMode g.slots 0 (optAt fp gi) a).2.2).2.1 gi =
          (stepParams K fail oid gi fpMode g.slots 0 (optAt fp gi) a).2.1 := by
        rw [sg_fp_lo K fail oid fpMode rest (gi + 1)
          (optSet fp gi (stepParams K fail oid gi fpMode g.slots 0 (optAt fp gi) a).2.1)
          (stepParams K fail oid gi fpMode g.slots 0 (optAt fp gi) a).2.2 gi (by omega)]
        rcases hfg : optAt fp gi with _ | row0
        · rw [sp_fp_none K fail oid gi fpMode g.slots 0 a, optSet_none]
          exact hfg
        · obtain ⟨row', h1⟩ := sp_fp_some K fail oid gi fpMode g.slots 0 row0 a
          rw [h1]
          exact optAt_set_some fp gi row0 row' hfg
      obtain ⟨Δr, hΔr, hΔrtags⟩ := sg_trace_delta K fail oid fpMode rest (gi + 1)
        (optSet fp gi (stepParams K fail oid gi fpMode g.slots 0 (optAt fp gi) a).2.1)
        (stepParams K fail oid gi fpMode g.slots 0 (optAt fp gi) a).2.2
      intro j s hs
      obtain ⟨s', hs', hdesc⟩ := sp_get K fail oid gi fpMode g.slots 0 (optAt fp gi) a
        _ _ _ rfl ha hrest_err j s hs
      have htr : callsFor gi j
          (stepGroups K fail oid fpMode rest (gi + 1)
            (optSet fp gi (stepParams K fail oid gi fpMode g.slots 0 (optAt fp gi) a).2.1)
            (stepParams K fail oid gi fpMode g.slots 0 (optAt fp gi) a).2.2).2.2.trace =
          callsFor gi j (stepParams K fail oid gi fpMode g.slots 0 (optAt fp gi) a).2.2.trace
          := by
        rw [hΔr, callsFor_append]
        have : callsFor gi j Δr = [] := by
          refine callsFor_nil_of_ne gi j Δr ?_
          intro e he hcon
          obtain ⟨qg, qp, hq, ht⟩ := hΔrtags e he
          rw [ht] at hcon
          injection hcon with hcon'
          have : qg = gi := congrArg Prod.fst hcon'
          omega
        rw [this, List.append_nil]
      simp only [Nat.zero_add] at hdesc
      simp only [Nat.add_zero]
      refine ⟨s', hs', ?_⟩
      rcases hdesc with ⟨hA1, hA2, hA3, hA4⟩ | ⟨gt, nid, hB1, hcase⟩
      · exact Or.inl ⟨hA1, hA2, by rw [htr]; exact hA3, by rw [h2]; exact hA4⟩
      · refine Or.inr ⟨gt, nid, hB1, ?_⟩
        rcases hcase with ⟨hfp, hc2, hc3, hc4⟩ | ⟨sh, hfp, hsl, hc2, hc3, hc4⟩
        · exact Or.inl ⟨hfp, hc2, by rw [htr]; exact hc3, by rw [h2]; exact hc4⟩
        · exact Or.inr ⟨sh, hfp, hsl, hc2, by rw [htr]; exact hc3, by rw [h2]; exact hc4⟩
    | succ k' =>
      simp only [List.getElem?_cons_succ] at hk
      have hrec := ih (gi + 1)
        (optSet fp gi (stepParams K fail oid gi fpMode g.slots 0 (optAt fp gi) a).2.1)
        (stepParams K fail oid gi fpMode g.slots 0 (optAt fp gi) a).2.2
        _ _ _ rfl hrest_err hb k' g0 hk
      obtain ⟨g1, hg1, hcfg, hinner⟩ := hrec
      have hidx : gi + 1 + k' = gi + (k' + 1) := by omega
      rw [hidx] at hinner
      refine ⟨g1, by simpa using hg1, hcfg, ?_⟩
      intro j s hsj
      obtain ⟨s', hs', hdesc⟩ := hinner j s hsj
      have hset : optAt (optSet fp gi
          (stepParams K fail oid gi fpMode g.slots 0 (optAt fp gi) a).2.1) (gi + (k' + 1)) =
          optAt fp (gi + (k' + 1)) := by
        rw [← hidx]
        exact optAt_set_ne fp gi (gi + 1 + k') _ (by omega)
      have htr : callsFor (gi + (k' + 1)) j
          (stepParams K fail oid gi fpMode g.slots 0 (optAt fp gi) a).2.2.trace =
          callsFor (gi + (k' + 1)) j a.trace := by
        obtain ⟨Δh, hΔh, hΔhtags⟩ := sp_trace_delta K fail oid gi fpMode g.slots 0 (optAt fp gi) a
        rw [hΔh, callsFor_append]
        have : callsFor (gi + (k' + 1)) j Δh = [] := by
          refine callsFor_nil_of_ne (gi + (k' + 1)) j Δh ?_
          intro e he hcon
          obtain ⟨q, hq, ht⟩ := hΔhtags e he
          rw [ht] at hcon
          injection hcon with hcon'
          have : gi = gi + (k' + 1) := congrArg Prod.fst hcon'
          omega
        rw [this, List.append_nil]
      refine ⟨s', hs', ?_⟩
      rcases hdesc with ⟨hA1, hA2, hA3, hA4⟩ | ⟨gt, nid, hB1, hcase⟩
      · exact Or.inl ⟨hA1, hA2, by rw [hA3, htr], by rw [hA4, hset]⟩
      · refine Or.inr ⟨gt, nid, hB1, ?_⟩
        rcases hcase with ⟨hfp, hc2, hc3, hc4⟩ | ⟨sh, hfp, hsl, hc2, hc3, hc4⟩
        · exact Or.inl ⟨hfp, hc2, by rw [hc3, htr], by rw [hc4, hset]⟩
        · exact Or.inr ⟨sh, hfp, by rw [← hset]; exact hsl, hc2, by rw [hc3, htr], hc4⟩

/- ### `step`-level positional description -/

/-- A `step` call with `fp16_param_groups=None` leaves no fp16 output. -/
lemma sg_fp_none_out (K : Kernel) (fail : Nat → Bool) (oid : Nat) (fpMode : Bool) :
    ∀ (gs : List ParamGroup) (gi : Nat) (a : Acc),
      (stepGroups K fail oid fpMode gs gi none a).2.1 = none := by
  intro gs
  induction gs with
  | nil => intro gi a; rfl
  | cons g rest ih =>
    intro gi a
    simp only [stepGroups]
    have : optSet (none : Option (List (List Tensor))) gi
        (stepParams K fail oid gi fpMode g.slots 0 (optAt none gi) a).2.1 = none := by
      rcases hh : (stepParams K fail oid gi fpMode g.slots 0 (optAt none gi) a).2.1 with _ | t
        <;> rfl
    rw [this]
    exact ih (gi + 1) _

/-- Per-position description of an error-free `step` call: group `k`,
parameter `j`. The per-call trace and the fp16 argument are those of this
single call. -/
lemma step_get (K : Kernel) (fail : Nat → Bool) (oid : Nat) (groups : List ParamGroup)
    (fp16 : Option (List (List Tensor))) (nid : Nat)
    (hok : (step K fail oid groups fp16 nid).err = false)
    (k : Nat) (g0 : ParamGroup) (hk : groups[k]? = some g0) :
    ∃ g1, (step K fail oid groups fp16 nid).groups[k]? = some g1 ∧ g1.cfg = g0.cfg ∧
      ∀ (j : Nat) (s : Slot), g0.slots[j]? = some s →
        ∃ s', g1.slots[j]? = some s' ∧
          ((s.p.grad = none ∧ s' = s ∧
            callsFor k j (step K fail oid groups fp16 nid).trace = [] ∧
            optAt (optAt (step K fail oid groups fp16 nid).fp16 k) j =
              optAt (optAt fp16 k) j) ∨
           (∃ g nid', s.p.grad = some g ∧
            ((fp16.isSome = false ∧ s' = updSlot K oid s g nid' ∧
              callsFor k j (step K fail oid groups fp16 nid).trace =
                [entryOf k j oid s g nid'] ∧
              optAt (optAt (step K fail oid groups fp16 nid).fp16 k) j =
                optAt (optAt fp16 k) j) ∨
             (∃ sh, fp16.isSome = true ∧ optAt (optAt fp16 k) j = some sh ∧
              s' = updSlotC K oid s g sh nid' ∧
              callsFor k j (step K fail oid groups fp16 nid).trace =
                [entryOfC k j oid s g sh nid'] ∧
              optAt (optAt (step K fail oid groups fp16 nid).fp16 k) j =
                some (shOut K oid s g sh nid'))))) := by
  obtain ⟨g1, hg1, hcfg, hinner⟩ := sg_get K fail oid fp16.isSome groups 0 fp16
    { nextId := nid, calls := 0, trace := [], err := false } _ _ _ rfl rfl hok k g0 hk
  refine ⟨g1, hg1, hcfg, ?_⟩
  intro j s hsj
  obtain ⟨s', hs', hdesc⟩ := hinner j s hsj
  simp only [Nat.zero_add] at hdesc
  refine ⟨s', hs', ?_⟩
  rcases hdesc with ⟨hA1, hA2, hA3, hA4⟩ | ⟨g, nid', hB1, hcase⟩
  · exact Or.inl ⟨hA1, hA2, by simpa [callsFor] using hA3, hA4⟩
  · refine Or.inr ⟨g, nid', hB1, ?_⟩
    rcases hcase with ⟨hfp, hc2, hc3, hc4⟩ | ⟨sh, hfp, hsl, hc2, hc3, hc4⟩
    · exact Or.inl ⟨hfp, hc2, by simpa [callsFor] using hc3, hc4⟩
    · exact Or.inr ⟨sh, hfp, hsl, hc2, by simpa [callsFor] using hc3, hc4⟩

/- ### Tensor and state metadata lemmas -/

lemma sameBuf_refl (t : Tensor) : sameBuf t t := ⟨rfl, rfl, rfl, rfl⟩

lemma sameBuf_trans (t1 t2 t3 : Tensor) (h1 : sameBuf t1 t2) (h2 : sameBuf t2 t3) :
    sameBuf t1 t3 :=
  ⟨h2.1.trans h1.1, h2.2.1.trans h1.2.1, h2.2.2.1.trans h1.2.2.1, h2.2.2.2.trans h1.2.2.2⟩

lemma updSlot_param (K : Kernel) (oid : Nat) (s : Slot) (g : Tensor) (nid : Nat) :
    sameBuf s.p.data (updSlot K oid s g nid).p.data ∧
    (updSlot K oid s g nid).p.grad = s.p.grad := by
  constructor
  · exact ⟨rfl, rfl, rfl, rfl⟩
  · rfl

lemma updSlot_st (K : Kernel) (oid : Nat) (s : Slot) (g : Tensor) (nid : Nat) :
    ∃ ps', (updSlot K oid s g nid).st = some ps' ∧ ps'.step = oldStep s + 1 ∧
      sameBuf (ps1of s nid).exp_avg ps'.exp_avg ∧
      sameBuf (ps1of s nid).exp_avg_sq ps'.exp_avg_sq := by
  refine ⟨_, rfl, ?_, ⟨rfl, rfl, rfl, rfl⟩, ⟨rfl, rfl, rfl, rfl⟩⟩
  exact ps1of_step s nid

lemma updSlotC_param (K : Kernel) (oid : Nat) (s : Slot) (g sh : Tensor) (nid : Nat) :
    sameBuf s.p.data (updSlotC K oid s g sh nid).p.data ∧
    (updSlotC K oid s g sh nid).p.grad = s.p.grad := by
  constructor
  · exact ⟨rfl, rfl, rfl, rfl⟩
  · rfl

lemma updSlotC_st (K : Kernel) (oid : Nat) (s : Slot) (g sh : Tensor) (nid : Nat) :
    ∃ ps', (updSlotC K oid s g sh nid).st = some ps' ∧ ps'.step = oldStep s + 1 ∧
      sameBuf (ps1of s nid).exp_avg ps'.exp_avg ∧
      sameBuf (ps1of s nid).exp_avg_sq ps'.exp_avg_sq := by
  refine ⟨_, rfl, ?_, ⟨rfl, rfl, rfl, rfl⟩, ⟨rfl, rfl, rfl, rfl⟩⟩
  exact ps1of_step s nid

lemma zeros_like_cpu_fields (t : Tensor) (fresh : Nat) :
    (zeros_like_cpu t fresh).tid = fresh ∧
    (zeros_like_cpu t fresh).shape = t.shape ∧
    (zeros_like_cpu t fresh).dtype = t.dtype ∧
    (zeros_like_cpu t fresh).device = Device.cpu ∧
    (zeros_like_cpu t fresh).data = List.replicate t.data.length 0 :=
  ⟨rfl, rfl, rfl, rfl, rfl⟩

/- ### Sample concrete inputs used by witnesses -/

def sampleTensor : Tensor :=
  { tid := 100, shape := [1], dtype := DType.f32, device := Device.cpu, data := [0] }

def sampleParam : Param := { data := sampleTensor, grad := none }

def sampleConfig : Config :=
  { lr := 1 / 1000, beta1 := 9 / 10, beta2 := 999 / 1000, eps := 1 / 100000000,
    weight_decay := 0, amsgrad := false }

/-- A build-cache world with no markers and no artifact (fresh cache). -/
def quietWorld : World :=
  { startedInit := false, doneAt := fun _ => false, artifact := false }

/-- A trivial kernel (writes every buffer back unchanged), used to
instantiate witnesses; the theorems hold for every kernel. -/
def idKernel : Kernel :=
  { upd := fun _ p _ m v => (p, m, v),
    updCopy := fun _ p _ m v sh => (p, m, v, sh) }

def wTensor : Tensor :=
  { tid := 0, shape := [1], dtype := DType.f32, device := Device.cpu, data := [2] }

def wGrad : Tensor :=
  { tid := 1, shape := [1], dtype := DType.f32, device := Device.cpu, data := [3] }

def wShadow : Tensor :=
  { tid := 2, shape := [1], dtype := DType.f16, device := Device.cpu, data := [0] }

def wSlot : Slot := { p := { data := wTensor, grad := some wGrad }, st := none }

def wGroup : ParamGroup := { slots := [wSlot], cfg := sampleConfig }

/- ### Lemmas about the wait loop and the loader -/

lemma waitLoop_of_never (doneAt : Nat → Bool) (h : ∀ t, doneAt t = false) :
    ∀ fuel t, waitLoop doneAt fuel t = false := by
  intro fuel
  induction fuel with
  | zero => intro t; rfl
  | succ n ih => intro t; simp [waitLoop, h t, ih]

lemma waitLoop_of_done (doneAt : Nat → Bool) :
    ∀ k t, doneAt (t + k) = true → waitLoop doneAt (k + 1) t = true := by
  intro k
  induction k with
  | zero =>
    intro t h
    rw [Nat.add_zero] at h
    rw [waitLoop, if_pos h]
  | succ n ih =>
    intro t h
    have h' : doneAt (t + 1 + n) = true := by
      have he : t + 1 + n = t + (n + 1) := by omega
      rw [he]
      exact h
    rw [waitLoop]
    by_cases hd : doneAt t
    · rw [if_pos hd]
    · rw [if_neg hd]
      exact ih (t + 1) h'

lemma load_op_cached (fuel : Nat) (w : World) (s : ProcState) (h : Nat)
    (hc : s.ds_opt_adam = some h) : load_op fuel w s = some (h, s) := by
  simp [load_op, hc]

lemma load_op_caches (fuel : Nat) (w : World) (s : ProcState) (h : Nat) (s' : ProcState)
    (hr : load_op fuel w s = some (h, s')) : s'.ds_opt_adam = some h := by
  rcases hds : s.ds_opt_adam with _ | h0
  · simp only [load_op, hds] at hr
    by_cases hw : wait_if_build_started w.startedInit w.doneAt fuel
    · simp only [hw, if_true, Option.some.injEq, Prod.mk.injEq] at hr
      rw [← hr.2]
      simp [hr.1]
    · simp [hw] at hr
  · simp only [load_op, hds, Option.some.injEq, Prod.mk.injEq] at hr
    rw [← hr.2, hds, hr.1]

/-- Claim C1: if the class cache is empty, the "started" marker exists and a prebuilt
artifact is in the cache: while no "done" marker ever appears the call blocks
(returns none at every fuel); once an external actor has written "done" at
some poll time, the call returns the loaded prebuilt handle with the
compilation count unchanged (no compiler invocation) and caches it. -/
theorem load_op_blocks_then_loads_prebuilt (w : World) (s : ProcState)
    (hds : s.ds_opt_adam = none) (hst : w.startedInit = true) (hart : w.artifact = true) :
    ((∀ t, w.doneAt t = false) → ∀ fuel, load_op fuel w s = none) ∧
    (∀ t0, w.doneAt t0 = true →
      ∃ fuel s', load_op fuel w s = some (dsCpuAdamHandle, s') ∧
        s'.compiles = s.compiles ∧ s'.ds_opt_adam = some dsCpuAdamHandle) := by
  constructor
  · intro hnever fuel
    simp [load_op, hds, wait_if_build_started, hst, waitLoop_of_never w.doneAt hnever]
  · intro t0 hdone
    refine ⟨t0 + 1,
      { s with ds_opt_adam := some dsCpuAdamHandle,
               wroteStarted := true, wroteDone := true, compiles := s.compiles }, ?_, ?_, ?_⟩
    · have hwait : wait_if_build_started w.startedInit w.doneAt (t0 + 1) = true := by
        rw [hst]
        simpa [wait_if_build_started] using waitLoop_of_done w.doneAt t0 0 (by simpa using hdone)
      simp [load_op, hds, hwait, loadExt, hart]
    · rfl
    · rfl

theorem load_op_blocks_then_loads_prebuilt_witness :
    (∀ fuel, load_op fuel
      { startedInit := true, doneAt := fun _ => false, artifact := true } freshProc = none) ∧
    (∃ fuel s', load_op fuel
      { startedInit := true, doneAt := fun t => decide (t = 2), artifact := true } freshProc =
        some (dsCpuAdamHandle, s') ∧
      s'.compiles = freshProc.compiles ∧ s'.ds_opt_adam = some dsCpuAdamHandle) := by
  constructor
  · exact (load_op_blocks_then_loads_prebuilt
      { startedInit := true, doneAt := fun _ => false, artifact := true } freshProc
      rfl rfl rfl).1 (fun t => rfl)
  · exact (load_op_blocks_then_loads_prebuilt
      { startedInit := true, doneAt := fun t => decide (t = 2), artifact := true } freshProc
      rfl rfl rfl).2 2 (by decide)

/-- Claim C3: the first `load_op` call in a fresh build cache builds once and stores the
handle in the class-level slot; any call finding a cached handle returns
exactly that handle with the process state unchanged (no marker writes, no
compilation); consequently any later call after a successful one returns the
same (identical) handle with no further side effects. -/
theorem load_op_memoizes (fuel fuel' : Nat) (w w' : World) (s : ProcState) :
    (∀ h, s.ds_opt_adam = some h → load_op fuel w s = some (h, s)) ∧
    (s.ds_opt_adam = none → w.startedInit = false → w.artifact = false →
      load_op fuel w s = some (dsCpuAdamHandle,
        { s with ds_opt_adam := some dsCpuAdamHandle,
                 wroteStarted := true, wroteDone := true, compiles := s.compiles + 1 })) ∧
    (∀ h s₁, load_op fuel w s = some (h, s₁) → load_op fuel' w' s₁ = some (h, s₁)) := by
  refine ⟨fun h hc => load_op_cached fuel w s h hc, ?_, ?_⟩
  · intro hds hst hart
    simp [load_op, hds, wait_if_build_started, hst, loadExt, hart]
  · intro h s₁ hr
    exact load_op_cached fuel' w' s₁ h (load_op_caches fuel w s h s₁ hr)

theorem load_op_memoizes_witness :
    (load_op 0 quietWorld freshProc = some (dsCpuAdamHandle,
      { freshProc with ds_opt_adam := some dsCpuAdamHandle,
                       wroteStarted := true, wroteDone := true,
                       compiles := freshProc.compiles + 1 })) ∧
    (load_op 3 quietWorld
      { freshProc with ds_opt_adam := some dsCpuAdamHandle,
                       wroteStarted := true, wroteDone := true,
                       compiles := freshProc.compiles + 1 } =
      some (dsCpuAdamHandle,
        { freshProc with ds_opt_adam := some dsCpuAdamHandle,
                         wroteStarted := true, wroteDone := true,
                         compiles := freshProc.compiles + 1 })) := by
  have h1 := (load_op_memoizes 0 3 quietWorld quietWorld freshProc).2.1 rfl rfl rfl
  exact ⟨h1, (load_op_memoizes 0 3 quietWorld quietWorld freshProc).2.2 dsCpuAdamHandle _ h1⟩

/-- Claim C4: the wait loop of `wait_if_build_started` never terminates when the
"started" marker exists and no "done" marker ever appears (false at every
fuel bound, i.e. no finite number of polls returns); conversely it returns
when a "done" marker appears at some poll time, and returns immediately when
the "started" marker is absent. -/
theorem wait_if_build_started_termination (doneAt : Nat → Bool) :
    ((∀ t, doneAt t = false) → ∀ fuel, wait_if_build_started true doneAt fuel = false) ∧
    (∀ t0, doneAt t0 = true → ∃ fuel, wait_if_build_started true doneAt fuel = true) ∧
    (∀ fuel, wait_if_build_started false doneAt fuel = true) := by
  refine ⟨?_, ?_, fun fuel => rfl⟩
  · intro h fuel
    simp [wait_if_build_started, waitLoop_of_never doneAt h]
  · intro t0 h
    exact ⟨t0 + 1, by
      simpa [wait_if_build_started] using waitLoop_of_done doneAt t0 0 (by simpa using h)⟩

theorem wait_if_build_started_termination_witness :
    (wait_if_build_started true (fun _ => false) 7 = false) ∧
    (∃ fuel, wait_if_build_started true (fun t => decide (t = 3)) fuel = true) ∧
    (wait_if_build_started false (fun _ => false) 0 = true) :=
  ⟨(wait_if_build_started_termination (fun _ => false)).1 (fun t => rfl) 7,
   (wait_if_build_started_termination (fun t => decide (t = 3))).2.1 3 (by decide),
   (wait_if_build_started_termination (fun _ => false)).2.2 0⟩

/- ### The constructor counter -/

lemma load_op_keeps_counter (fuel : Nat) (w : World) (hw : w.startedInit = false)
    (s : ProcState) :
    ∃ r, load_op fuel w s = some r ∧ r.2.optimizer_id = s.optimizer_id := by
  rcases hds : s.ds_opt_adam with _ | h0
  · refine ⟨((loadExt w.artifact).1,
      { s with ds_opt_adam := some (loadExt w.artifact).1,
               wroteStarted := true, wroteDone := true,
               compiles := s.compiles + (if (loadExt w.artifact).2 then 1 else 0) }), ?_, rfl⟩
    simp [load_op, hds, wait_if_build_started, hw]
  · exact ⟨(h0, s), load_op_cached fuel w s h0 hds, rfl⟩

lemma construct_ids (fuel : Nat) (w : World) (hw : w.startedInit = false)
    (s : ProcState) (cfg : Config) (ps : List (List Param)) :
    ∃ r, construct fuel w s cfg ps = some r ∧
      r.1.opt_id = s.optimizer_id ∧ r.2.1.optimizer_id = s.optimizer_id + 1 := by
  obtain ⟨rl, hrl, hco⟩ :=
    load_op_keeps_counter fuel w hw { s with optimizer_id := s.optimizer_id + 1 }
  refine ⟨({ opt_id := s.optimizer_id,
             groups := ps.map fun l =>
               { slots := l.map fun p => { p := p, st := none }, cfg := cfg } },
           rl.2,
           [KCall.create s.optimizer_id cfg.lr cfg.beta1 cfg.beta2 cfg.eps cfg.weight_decay]),
         ?_, rfl, ?_⟩
  · simp [construct, hrl]
  · simpa using hco

lemma constructN_ids (fuel : Nat) (w : World) (hw : w.startedInit = false) :
    ∀ (cs : List (Config × List (List Param))) (s : ProcState),
      ((constructN fuel w cs s).1.map Optimizer.opt_id =
        List.range' s.optimizer_id cs.length) ∧
      (constructN fuel w cs s).2.optimizer_id = s.optimizer_id + cs.length := by
  intro cs
  induction cs with
  | nil => intro s; simp [constructN, List.range']
  | cons c cs ih =>
    intro s
    obtain ⟨r, hr, h1, h2⟩ := construct_ids fuel w hw s c.1 c.2
    have ihr := ih r.2.1
    constructor
    · simp only [constructN, hr, List.map_cons, List.length_cons, List.range'_succ]
      exact congrArg₂ List.cons h1 (by rw [ihr.1, h2])
    · simp only [constructN, hr, List.length_cons]
      rw [ihr.2, h2]
      omega

/-- Claim C5: starting from a fresh process (class counter 0), a sequence of optimizer
constructions assigns to the i-th instance `opt_id = i` (the number of
instances constructed before it), the counter advances by exactly 1 per
construction, and all assigned ids are pairwise distinct (never reused). -/
theorem opt_id_counter (fuel : Nat) (w : World) (hw : w.startedInit = false)
    (cs : List (Config × List (List Param))) :
    ((constructN fuel w cs freshProc).1.map Optimizer.opt_id = List.range cs.length) ∧
    ((constructN fuel w cs freshProc).1.map Optimizer.opt_id).Nodup ∧
    (constructN fuel w cs freshProc).2.optimizer_id = cs.length := by
  have h := constructN_ids fuel w hw cs freshProc
  have hrange : (constructN fuel w cs freshProc).1.map Optimizer.opt_id = List.range cs.length := by
    rw [h.1, List.range_eq_range']
    rfl
  refine ⟨hrange, ?_, by simpa [freshProc] using h.2⟩
  rw [hrange]
  exact List.nodup_range cs.length

theorem opt_id_counter_witness :
    ((constructN 0 quietWorld
        [(sampleConfig, [[sampleParam]]), (sampleConfig, [[sampleParam]])] freshProc).1.map
      Optimizer.opt_id = List.range 2) ∧
    ((constructN 0 quietWorld
        [(sampleConfig, [[sampleParam]]), (sampleConfig, [[sampleParam]])] freshProc).1.map
      Optimizer.opt_id).Nodup ∧
    (constructN 0 quietWorld
        [(sampleConfig, [[sampleParam]]), (sampleConfig, [[sampleParam]])] freshProc).2.optimizer_id
      = 2 :=
  opt_id_counter 0 quietWorld rfl [(sampleConfig, [[sampleParam]]), (sampleConfig, [[sampleParam]])]

/- ### Sequences of calls: positional lemmas -/

lemma installRow_get :
    ∀ (slots : List Slot) (r : List (Option Tensor)) (pi : Nat) (s0 : Slot),
      slots[pi]? = some s0 →
      (installRow r slots)[pi]? =
        some { s0 with p := { s0.p with grad := (r[pi]?).join } } := by
  intro slots
  induction slots with
  | nil => intro r pi s0 h; cases h
  | cons s rest ih =>
    intro r pi s0 h
    cases pi with
    | zero =>
      simp only [List.getElem?_cons_zero, Option.some.injEq] at h
      rw [← h]
      rcases r with _ | ⟨o, r'⟩
      · simp [installRow, Option.join]
      · simp [installRow, Option.join]
    | succ n =>
      simp only [List.getElem?_cons_succ] at h
      have := ih r.tail n s0 h
      have htail : (r.tail)[n]? = r[n + 1]? := by
        rcases r with _ | ⟨o, r'⟩
        · simp
        · simp
      rw [htail] at this
      simpa [installRow] using this

lemma installRow_length : ∀ (slots : List Slot) (r : List (Option Tensor)),
    (installRow r slots).length = slots.length := by
  intro slots
  induction slots with
  | nil => intro r; rfl
  | cons s rest ih => intro r; simpa [installRow] using ih r.tail

lemma installGrads_get :
    ∀ (groups : List ParamGroup) (gs : List (List (Option Tensor))) (gi : Nat)
      (g0 : ParamGroup),
      groups[gi]? = some g0 →
      ∃ g1, (installGrads gs groups)[gi]? = some g1 ∧ g1.cfg = g0.cfg ∧
        g1.slots.length = g0.slots.length ∧
        ∀ (pi : Nat) (s0 : Slot), g0.slots[pi]? = some s0 →
          g1.slots[pi]? = some { s0 with p := { s0.p with grad := gradAt gs gi pi } } := by
  intro groups
  induction groups with
  | nil => intro gs gi g0 h; cases h
  | cons g rest ih =>
    intro gs gi g0 h
    cases gi with
    | zero =>
      simp only [List.getElem?_cons_zero, Option.some.injEq] at h
      rw [← h]
      refine ⟨{ g with slots := installRow (gs.headD []) g.slots }, by simp [installGrads], rfl,
        installRow_length g.slots (gs.headD []), ?_⟩
      · intro pi s0 hs0
        have := installRow_get g.slots (gs.headD []) pi s0 hs0
        have hg : ((gs.headD [])[pi]?).join = gradAt gs 0 pi := by
          rcases gs with _ | ⟨row, gs'⟩
          · simp [gradAt]
          · simp [gradAt]
        rw [hg] at this
        exact this
    | succ n =>
      simp only [List.getElem?_cons_succ] at h
      obtain ⟨g1, hg1, hcfg, hlen, hinner⟩ := ih gs.tail n g0 h
      refine ⟨g1, by simpa [installGrads] using hg1, hcfg, hlen, ?_⟩
      intro pi s0 hs0
      have := hinner pi s0 hs0
      have hgg : gradAt gs.tail n pi = gradAt gs (n + 1) pi := by
        rcases gs with _ | ⟨row, gs'⟩
        · simp [gradAt]
        · simp [gradAt]
      rw [hgg] at this
      exact this

lemma countGrads_cons (c : CallSpec) (cs : List CallSpec) (gi pi : Nat) :
    countGrads (c :: cs) gi pi =
      (if (gradAt c.grads gi pi).isSome then 1 else 0) + countGrads cs gi pi := by
  by_cases h : (gradAt c.grads gi pi).isSome
  · simp [countGrads, h, List.filter, Nat.add_comm]
  · simp [countGrads, List.filter, h]

/-- Per-position description of a sequence of error-free `step` calls, run
from state `rs`: the final step counter counts exactly the calls in which the
parameter carried a gradient; state appears exactly when some call carried a
gradient; the per-call traces carry exactly one update call per
gradient-carrying call and none otherwise; buffers are preserved (same
allocation identity) once present; and lazily created buffers match the
parameter's shape and dtype and live on the CPU. -/
lemma run_get (K : Kernel) (oid : Nat) :
    ∀ (specs : List CallSpec) (rs : RunState) (gi pi : Nat) (g0 : ParamGroup) (s0 : Slot),
      rs.groups[gi]? = some g0 → g0.slots[pi]? = some s0 →
      (∀ x ∈ (runSteps K oid specs rs).2.2.1, x = false) →
      ∃ g1 s1, (runSteps K oid specs rs).1.groups[gi]? = some g1 ∧
        g1.slots[pi]? = some s1 ∧ g1.cfg = g0.cfg ∧
        sameBuf s0.p.data s1.p.data ∧
        oldStep s1 = oldStep s0 + countGrads specs gi pi ∧
        (s1.st = none ↔ (s0.st = none ∧ countGrads specs gi pi = 0)) ∧
        ((runSteps K oid specs rs).2.1.map fun tr => (callsFor gi pi tr).length).sum =
          countGrads specs gi pi ∧
        (∀ (i : Nat) (c : CallSpec) (tr : List KCall),
          specs[i]? = some c → (runSteps K oid specs rs).2.1[i]? = some tr →
          gradAt c.grads gi pi = none → callsFor gi pi tr = []) ∧
        (∀ ps0, s0.st = some ps0 → ∃ ps1, s1.st = some ps1 ∧
          sameBuf ps0.exp_avg ps1.exp_avg ∧ sameBuf ps0.exp_avg_sq ps1.exp_avg_sq) ∧
        (s0.st = none → ∀ ps1, s1.st = some ps1 →
          ps1.exp_avg.shape = s0.p.data.shape ∧ ps1.exp_avg.dtype = s0.p.data.dtype ∧
          ps1.exp_avg.device = Device.cpu ∧
          ps1.exp_avg_sq.shape = s0.p.data.shape ∧ ps1.exp_avg_sq.dtype = s0.p.data.dtype ∧
          ps1.exp_avg_sq.device = Device.cpu) := by
  intro specs
  induction specs with
  | nil =>
    intro rs gi pi g0 s0 hg hsl herr
    refine ⟨g0, s0, hg, hsl, rfl, sameBuf_refl s0.p.data, by simp [countGrads], ?_,
      by simp [runSteps, countGrads], ?_, ?_, ?_⟩
    · simp [countGrads]
    · intro i c tr hc _ _
      simp at hc
    · intro ps0 h0
      exact ⟨ps0, h0, sameBuf_refl _, sameBuf_refl _⟩
    · intro h0 ps1 h1
      rw [h0] at h1
      cases h1
  | cons c cs ih =>
    intro rs gi pi g0 s0 hg hsl herr
    simp only [runSteps] at herr ⊢
    have hok : (step K c.fail oid (installGrads c.grads rs.groups) c.fp16 rs.nextId).err
        = false :=
      herr _ (List.mem_cons_self _ _)
    have herr' : ∀ x ∈ (runSteps K oid cs
        { groups := (step K c.fail oid (installGrads c.grads rs.groups) c.fp16 rs.nextId).groups,
          nextId := (step K c.fail oid (installGrads c.grads rs.groups) c.fp16
            rs.nextId).nextId }).2.2.1, x = false :=
      fun x hx => herr x (List.mem_cons_of_mem _ hx)
    obtain ⟨g0', hg0', hcfg', hlen', hpos'⟩ := installGrads_get rs.groups c.grads gi g0 hg
    have hs0' := hpos' pi s0 hsl
    obtain ⟨g1', hg1', hcfg1', hinner'⟩ :=
      step_get K c.fail oid (installGrads c.grads rs.groups) c.fp16 rs.nextId hok gi g0' hg0'
    obtain ⟨s1', hs1', hdesc⟩ := hinner' pi _ hs0'
    rcases hgr : gradAt c.grads gi pi with _ | gt
    · -- this call skips the parameter
      rcases hdesc with ⟨_, hA2, hA3, _⟩ | ⟨g', _, hB1, _⟩
      · obtain ⟨g1, s1, f1, f2, f3, f4, f5, f6, f7, f8, f9, f10⟩ :=
          ih { groups := (step K c.fail oid (installGrads c.grads rs.groups) c.fp16
                 rs.nextId).groups,
               nextId := (step K c.fail oid (installGrads c.grads rs.groups) c.fp16
                 rs.nextId).nextId } gi pi g1' s1' hg1' hs1' herr'
        rw [hA2] at f4 f5 f6 f9 f10
        refine ⟨g1, s1, f1, f2, f3.trans (hcfg1'.trans hcfg'), ?_, ?_, ?_, ?_, ?_, ?_, ?_⟩
        · simpa [hgr] using f4
        · rw [f5]
          simp [countGrads_cons, hgr, oldStep, hgr]
        · rw [f6, countGrads_cons, hgr]
          simp
        · rw [countGrads_cons, hgr]
          simpa [hA3] using f7
        · intro i cc tr hci htr hgn
          cases i with
          | zero =>
            simp only [List.getElem?_cons_zero, Option.some.injEq] at htr
            rw [← htr, hA3]
          | succ i' => exact f8 i' cc tr (by simpa using hci) (by simpa using htr) hgn
        · intro ps0 h0
          exact f9 ps0 (by simpa using h0)
        · intro h0 ps1 h1
          have := f10 (by simpa using h0) ps1 h1
          simpa using this
      · rw [show ({ s0 with p := { s0.p with grad := gradAt c.grads gi pi } } : Slot).p.grad =
          gradAt c.grads gi pi from rfl, hgr] at hB1
        cases hB1
    · -- this call updates the parameter
      rcases hdesc with ⟨hA1, _⟩ | ⟨g', nid', hB1, hcase⟩
      · rw [show ({ s0 with p := { s0.p with grad := gradAt c.grads gi pi } } : Slot).p.grad =
          gradAt c.grads gi pi from rfl, hgr] at hA1
        cases hA1
      · have hgt : g' = gt := by
          rw [show ({ s0 with p := { s0.p with grad := gradAt c.grads gi pi } } : Slot).p.grad =
            gradAt c.grads gi pi from rfl, hgr] at hB1
          injection hB1 with hB1'
          exact hB1'.symm
        subst hgt
        -- uniform facts about the updated slot s1'
        have hslot : (sameBuf s0.p.data s1'.p.data) ∧
            ∃ ps', s1'.st = some ps' ∧ ps'.step = oldStep s0 + 1 ∧
              sameBuf (ps1of { s0 with p := { s0.p with grad := gradAt c.grads gi pi } }
                nid').exp_avg ps'.exp_avg ∧
              sameBuf (ps1of { s0 with p := { s0.p with grad := gradAt c.grads gi pi } }
                nid').exp_avg_sq ps'.exp_avg_sq ∧
            callsFor gi pi (step K c.fail oid (installGrads c.grads rs.groups) c.fp16
              rs.nextId).trace ≠ [] ∧
            (callsFor gi pi (step K c.fail oid (installGrads c.grads rs.groups) c.fp16
              rs.nextId).trace).length = 1 := by
          rcases hcase with ⟨_, hc2, hc3, _⟩ | ⟨sh, _, _, hc2, hc3, _⟩
          · obtain ⟨ps', hps', hstep, hm, hv⟩ := updSlot_st K oid _ g' nid'
            have e1 : sameBuf s0.p.data s1'.p.data := by
              rw [hc2]
              exact (updSlot_param K oid _ g' nid').1
            have e2 : s1'.st = some ps' := by
              rw [hc2]
              exact hps'
            have e3 : ps'.step = oldStep s0 + 1 := hstep
            have e4 : callsFor gi pi (step K c.fail oid (installGrads c.grads rs.groups)
                c.fp16 rs.nextId).trace ≠ [] := by
              rw [hc3]
              simp
            have e5 : (callsFor gi pi (step K c.fail oid (installGrads c.grads rs.groups)
                c.fp16 rs.nextId).trace).length = 1 := by
              rw [hc3]
              rfl
            exact ⟨e1, ps', e2, e3, hm, hv, e4, e5⟩
          · obtain ⟨ps', hps', hstep, hm, hv⟩ := updSlotC_st K oid _ g' sh nid'
            have e1 : sameBuf s0.p.data s1'.p.data := by
              rw [hc2]
              exact (updSlotC_param K oid _ g' sh nid').1
            have e2 : s1'.st = some ps' := by
              rw [hc2]
              exact hps'
            have e3 : ps'.step = oldStep s0 + 1 := hstep
            have e4 : callsFor gi pi (step K c.fail oid (installGrads c.grads rs.groups)
                c.fp16 rs.nextId).trace ≠ [] := by
              rw [hc3]
              simp
            have e5 : (callsFor gi pi (step K c.fail oid (installGrads c.grads rs.groups)
                c.fp16 rs.nextId).trace).length = 1 := by
              rw [hc3]
              rfl
            exact ⟨e1, ps', e2, e3, hm, hv, e4, e5⟩
        obtain ⟨hpbuf, ps', hps', hstep', hm', hv', htr_ne, htr_len⟩ := hslot
        obtain ⟨g1, s1, f1, f2, f3, f4, f5, f6, f7, f8, f9, f10⟩ :=
          ih { groups := (step K c.fail oid (installGrads c.grads rs.groups) c.fp16
                 rs.nextId).groups,
               nextId := (step K c.fail oid (installGrads c.grads rs.groups) c.fp16
                 rs.nextId).nextId } gi pi g1' s1' hg1' hs1' herr'
        refine ⟨g1, s1, f1, f2, f3.trans (hcfg1'.trans hcfg'), sameBuf_trans _ _ _ hpbuf f4,
          ?_, ?_, ?_, ?_, ?_, ?_⟩
        · rw [f5, countGrads_cons, hgr]
          have : oldStep s1' = oldStep s0 + 1 := by
            rw [show oldStep s1' = ps'.step by rw [oldStep, hps']]
            exact hstep'
          rw [this]
          simp
          omega
        · rw [countGrads_cons, hgr]
          constructor
          · intro hnone
            have := (f6.mp hnone).1
            rw [hps'] at this
            cases this
          · intro hcon
            simp at hcon
        · rw [countGrads_cons, hgr]
          simp only [List.map_cons, List.sum_cons, htr_len, f7, Option.isSome_some, if_true]
        · intro i cc tr hci htr hgn
          cases i with
          | zero =>
            simp only [List.getElem?_cons_zero, Option.some.injEq] at hci
            rw [← hci] at hgn
            rw [hgn] at hgr
            cases hgr
          | succ i' => exact f8 i' cc tr (by simpa using hci) (by simpa using htr) hgn
        · intro ps0 h0
          obtain ⟨ps1, hps1, hbm, hbv⟩ := f9 ps' hps'
          have hmold : (ps1of { s0 with p := { s0.p with grad := gradAt c.grads gi pi } }
              nid').exp_avg = ps0.exp_avg := by
            have := (ps1of_some { s0 with p := { s0.p with grad := gradAt c.grads gi pi } }
              ps0 (by simpa using h0) nid').1
            rw [this]
          have hvold : (ps1of { s0 with p := { s0.p with grad := gradAt c.grads gi pi } }
              nid').exp_avg_sq = ps0.exp_avg_sq := by
            have := (ps1of_some { s0 with p := { s0.p with grad := gradAt c.grads gi pi } }
              ps0 (by simpa using h0) nid').1
            rw [this]
          rw [hmold] at hm'
          rw [hvold] at hv'
          exact ⟨ps1, hps1, sameBuf_trans _ _ _ hm' hbm, sameBuf_trans _ _ _ hv' hbv⟩
        · intro h0 ps1 h1
          have hz := ps1of_none { s0 with p := { s0.p with grad := gradAt c.grads gi pi } }
            (by simpa using h0) nid'
          rw [hz.1] at hm' hv'
          obtain ⟨ps1', hps1', hbm, hbv⟩ := f9 ps' hps'
          have : ps1 = ps1' := by
            rw [h1] at hps1'
            injection hps1'
          subst this
          have hmfin := sameBuf_trans _ _ _ hm' hbm
          have hvfin := sameBuf_trans _ _ _ hv' hbv
          exact ⟨hmfin.2.1, hmfin.2.2.1, hmfin.2.2.2,
            hvfin.2.1, hvfin.2.2.1, hvfin.2.2.2⟩

/- ### Decomposing a run of calls -/

/-- The first moment buffer passed to a kernel update call. -/
def entryM : KCall → Option Tensor
  | KCall.update _ _ _ _ _ m _ => some m
  | KCall.update_copy _ _ _ _ _ m _ _ => some m
  | KCall.create _ _ _ _ _ _ => none

/-- The second moment buffer passed to a kernel update call. -/
def entryV : KCall → Option Tensor
  | KCall.update _ _ _ _ _ _ v => some v
  | KCall.update_copy _ _ _ _ _ _ v _ => some v
  | KCall.create _ _ _ _ _ _ => none

lemma runSteps_append (K : Kernel) (oid : Nat) :
    ∀ (l1 l2 : List CallSpec) (rs : RunState),
      runSteps K oid (l1 ++ l2) rs =
        ((runSteps K oid l2 (runSteps K oid l1 rs).1).1,
         (runSteps K oid l1 rs).2.1 ++ (runSteps K oid l2 (runSteps K oid l1 rs).1).2.1,
         (runSteps K oid l1 rs).2.2.1 ++ (runSteps K oid l2 (runSteps K oid l1 rs).1).2.2.1,
         (runSteps K oid l1 rs).2.2.2 ++ (runSteps K oid l2 (runSteps K oid l1 rs).1).2.2.2)
      := by
  intro l1
  induction l1 with
  | nil => intro l2 rs; simp [runSteps]
  | cons c cs ih =>
    intro l2 rs
    simp [List.cons_append, runSteps, ih]

lemma run_traces_length (K : Kernel) (oid : Nat) :
    ∀ (specs : List CallSpec) (rs : RunState),
      (runSteps K oid specs rs).2.1.length = specs.length := by
  intro specs
  induction specs with
  | nil => intro rs; rfl
  | cons c cs ih => intro rs; simp [runSteps, ih]

lemma run_errs_split (K : Kernel) (oid : Nat) (l1 l2 : List CallSpec) (rs : RunState)
    (herr : ∀ x ∈ (runSteps K oid (l1 ++ l2) rs).2.2.1, x = false) :
    (∀ x ∈ (runSteps K oid l1 rs).2.2.1, x = false) ∧
    (∀ x ∈ (runSteps K oid l2 (runSteps K oid l1 rs).1).2.2.1, x = false) := by
  rw [runSteps_append] at herr
  constructor
  · intro x hx
    exact herr x (by simp only []; exact List.mem_append_left _ hx)
  · intro x hx
    exact herr x (by simp only []; exact List.mem_append_right _ hx)

lemma countGrads_take_zero (gi pi : Nat) :
    ∀ (specs : List CallSpec) (c : Nat),
      (∀ (i : Nat) (cc : CallSpec), i < c → specs[i]? = some cc →
        gradAt cc.grads gi pi = none) →
      countGrads (specs.take c) gi pi = 0 := by
  intro specs
  induction specs with
  | nil => intro c h; simp [countGrads]
  | cons s rest ih =>
    intro c h
    cases c with
    | zero => simp [countGrads]
    | succ k =>
      have h0 : gradAt s.grads gi pi = none := h 0 s (by omega) (by simp)
      have hres := ih k fun i cc hi hcc => h (i + 1) cc (by omega) (by simpa using hcc)
      rw [List.take_succ_cons, countGrads_cons, h0, hres]
      simp

/- ### Claim C2: the step counter counts exactly the gradient-carrying calls -/

/-- Claim C2: for a parameter with no state entry yet, over any sequence of
error-free `step` calls, the stored step counter equals exactly the number of
calls in which the parameter carried a non-absent gradient; a state entry
exists iff that number is positive; in total exactly that many kernel update
calls are made for the parameter; and a call in which its gradient is absent
makes no kernel update call for it. -/
theorem step_counter_counts_gradient_calls (K : Kernel) (oid : Nat) (specs : List CallSpec)
    (rs : RunState) (gi pi : Nat) (g0 : ParamGroup) (s0 : Slot)
    (hg : rs.groups[gi]? = some g0) (hsl : g0.slots[pi]? = some s0) (hst : s0.st = none)
    (herr : ∀ x ∈ (runSteps K oid specs rs).2.2.1, x = false) :
    ∃ g1 s1, (runSteps K oid specs rs).1.groups[gi]? = some g1 ∧
      g1.slots[pi]? = some s1 ∧
      (s1.st = none ↔ countGrads specs gi pi = 0) ∧
      (∀ ps1, s1.st = some ps1 → ps1.step = countGrads specs gi pi) ∧
      ((runSteps K oid specs rs).2.1.map fun tr => (callsFor gi pi tr).length).sum =
        countGrads specs gi pi ∧
      (∀ (i : Nat) (c : CallSpec) (tr : List KCall),
        specs[i]? = some c → (runSteps K oid specs rs).2.1[i]? = some tr →
        gradAt c.grads gi pi = none → callsFor gi pi tr = []) := by
  obtain ⟨g1, s1, f1, f2, f3, f4, f5, f6, f7, f8, f9, f10⟩ :=
    run_get K oid specs rs gi pi g0 s0 hg hsl herr
  have h0 : oldStep s0 = 0 := by simp [oldStep, hst]
  refine ⟨g1, s1, f1, f2, ?_, ?_, f7, f8⟩
  · constructor
    · intro h
      exact (f6.mp h).2
    · intro h
      exact f6.mpr ⟨hst, h⟩
  · intro ps1 hps1
    have h1 : oldStep s1 = ps1.step := by simp [oldStep, hps1]
    rw [← h1, f5, h0, Nat.zero_add]

def wSlotFresh : Slot := { p := { data := wTensor, grad := none }, st := none }

def wSpecGrad : CallSpec :=
  { grads := [[some wGrad]], fp16 := none, fail := fun _ => false }

def wSpecNone : CallSpec :=
  { grads := [[none]], fp16 := none, fail := fun _ => false }

def wRun : RunState :=
  { groups := [{ slots := [wSlotFresh], cfg := sampleConfig }], nextId := 10 }

theorem step_counter_counts_gradient_calls_witness :
    ∃ g1 s1,
      (runSteps idKernel 0 [wSpecGrad, wSpecNone] wRun).1.groups[0]? = some g1 ∧
      g1.slots[0]? = some s1 ∧
      (s1.st = none ↔ countGrads [wSpecGrad, wSpecNone] 0 0 = 0) ∧
      (∀ ps1, s1.st = some ps1 → ps1.step = countGrads [wSpecGrad, wSpecNone] 0 0) ∧
      ((runSteps idKernel 0 [wSpecGrad, wSpecNone] wRun).2.1.map
        fun tr => (callsFor 0 0 tr).length).sum = countGrads [wSpecGrad, wSpecNone] 0 0 ∧
      (∀ (i : Nat) (c : CallSpec) (tr : List KCall),
        [wSpecGrad, wSpecNone][i]? = some c →
        (runSteps idKernel 0 [wSpecGrad, wSpecNone] wRun).2.1[i]? = some tr →
        gradAt c.grads 0 0 = none → callsFor 0 0 tr = []) :=
  step_counter_counts_gradient_calls idKernel 0 [wSpecGrad, wSpecNone] wRun 0 0
    { slots := [wSlotFresh], cfg := sampleConfig } wSlotFresh rfl rfl rfl (by decide)

/- ### Claim C6: lazy zero allocation and buffer reuse -/

lemma run_errs_take (K : Kernel) (oid : Nat) (specs : List CallSpec) (rs : RunState)
    (herr : ∀ x ∈ (runSteps K oid specs rs).2.2.1, x = false) (n : Nat) :
    ∀ x ∈ (runSteps K oid (specs.take n) rs).2.2.1, x = false := by
  have hsd := List.take_append_drop n specs
  rw [← hsd] at herr
  exact (run_errs_split K oid (specs.take n) (specs.drop n) rs herr).1

/-- Shared description of the first gradient-carrying call for a previously
untracked parameter in an error-free sequence of `step` calls: no state
before it; zero-filled CPU buffers matching the parameter's shape/dtype are
allocated and passed to that call's kernel invocation, the counter reads 1
afterwards; and every later prefix still holds the same buffers. -/
lemma run_first_grad_alloc (K : Kernel) (oid : Nat) (specs : List CallSpec)
    (rs : RunState) (gi pi : Nat) (g0 : ParamGroup) (s0 : Slot) (c : Nat) (cspec : CallSpec)
    (hg : rs.groups[gi]? = some g0) (hsl : g0.slots[pi]? = some s0) (hst : s0.st = none)
    (hc : specs[c]? = some cspec) (hcg : (gradAt cspec.grads gi pi).isSome = true)
    (hbefore : ∀ (i : Nat) (cc : CallSpec), i < c → specs[i]? = some cc →
      gradAt cc.grads gi pi = none)
    (herr : ∀ x ∈ (runSteps K oid specs rs).2.2.1, x = false) :
    (∃ gB sB, (runSteps K oid (specs.take c) rs).1.groups[gi]? = some gB ∧
      gB.slots[pi]? = some sB ∧ sB.st = none) ∧
    (∃ gA sA psA, (runSteps K oid (specs.take (c + 1)) rs).1.groups[gi]? = some gA ∧
      gA.slots[pi]? = some sA ∧ sA.st = some psA ∧ psA.step = 1 ∧
      psA.exp_avg.shape = s0.p.data.shape ∧ psA.exp_avg.dtype = s0.p.data.dtype ∧
      psA.exp_avg.device = Device.cpu ∧
      psA.exp_avg_sq.shape = s0.p.data.shape ∧ psA.exp_avg_sq.dtype = s0.p.data.dtype ∧
      psA.exp_avg_sq.device = Device.cpu ∧
      (∃ tr e, (runSteps K oid (specs.take (c + 1)) rs).2.1[c]? = some tr ∧
        callsFor gi pi tr = [e] ∧
        (∃ m, entryM e = some m ∧ (∀ x ∈ m.data, x = 0) ∧
          m.shape = s0.p.data.shape ∧ m.dtype = s0.p.data.dtype ∧
          m.device = Device.cpu) ∧
        (∃ v, entryV e = some v ∧ (∀ x ∈ v.data, x = 0) ∧
          v.shape = s0.p.data.shape ∧ v.dtype = s0.p.data.dtype ∧
          v.device = Device.cpu)) ∧
      (∀ n, c + 1 ≤ n →
        ∃ gN sN psN, (runSteps K oid (specs.take n) rs).1.groups[gi]? = some gN ∧
          gN.slots[pi]? = some sN ∧ sN.st = some psN ∧
          sameBuf psA.exp_avg psN.exp_avg ∧ sameBuf psA.exp_avg_sq psN.exp_avg_sq)) := by
  have herrB := run_errs_take K oid specs rs herr c
  have hcount0 := countGrads_take_zero gi pi specs c hbefore
  obtain ⟨gB, sB, b1, b2, b3, b4, b5, b6, b7, b8, b9, b10⟩ :=
    run_get K oid (specs.take c) rs gi pi g0 s0 hg hsl herrB
  have hsB : sB.st = none := b6.mpr ⟨hst, hcount0⟩
  refine ⟨⟨gB, sB, b1, b2, hsB⟩, ?_⟩
  -- the allocating call
  have htake1 : specs.take (c + 1) = specs.take c ++ [cspec] := by
    rw [List.take_succ, hc]
    rfl
  have herrA := run_errs_take K oid specs rs herr (c + 1)
  rw [htake1] at herrA
  have herrCall :=
    (run_errs_split K oid (specs.take c) [cspec] rs herrA).2
  obtain ⟨gc, hgc⟩ : ∃ gc, gradAt cspec.grads gi pi = some gc := by
    rcases hx : gradAt cspec.grads gi pi with _ | gc
    · rw [hx] at hcg; cases hcg
    · exact ⟨gc, rfl⟩
  -- unfold the single-call run
  have hok : (step K cspec.fail oid
      (installGrads cspec.grads (runSteps K oid (specs.take c) rs).1.groups) cspec.fp16
      (runSteps K oid (specs.take c) rs).1.nextId).err = false := by
    apply herrCall
    simp [runSteps]
  obtain ⟨gB', hgB', _, _, hposB'⟩ :=
    installGrads_get (runSteps K oid (specs.take c) rs).1.groups cspec.grads gi gB b1
  have hsB' := hposB' pi sB b2
  obtain ⟨g1', hg1', _, hinner'⟩ := step_get K cspec.fail oid _ cspec.fp16
    (runSteps K oid (specs.take c) rs).1.nextId hok gi gB' hgB'
  obtain ⟨s1', hs1', hdesc⟩ := hinner' pi _ hsB'
  rcases hdesc with ⟨hA1, _⟩ | ⟨g', nid', hB1, hcase⟩
  · rw [show ({ sB with p := { sB.p with grad := gradAt cspec.grads gi pi } } : Slot).p.grad =
      gradAt cspec.grads gi pi from rfl, hgc] at hA1
    cases hA1
  · -- compact description of the slot after the allocating call
    have hsstar : ({ sB with p := { sB.p with grad := gradAt cspec.grads gi pi } } : Slot).st
        = none := by simpa using hsB
    have hps1 := ps1of_none { sB with p := { sB.p with grad := gradAt cspec.grads gi pi } }
      hsstar nid'
    have holdstar : oldStep { sB with p := { sB.p with grad := gradAt cspec.grads gi pi } }
        = 0 := by
      simp [oldStep, hsB]
    have hfacts : ∃ ps' e, s1'.st = some ps' ∧ ps'.step = 1 ∧
        sameBuf (zeros_like_cpu sB.p.data nid') ps'.exp_avg ∧
        sameBuf (zeros_like_cpu sB.p.data (nid' + 1)) ps'.exp_avg_sq ∧
        callsFor gi pi (step K cspec.fail oid
          (installGrads cspec.grads (runSteps K oid (specs.take c) rs).1.groups) cspec.fp16
          (runSteps K oid (specs.take c) rs).1.nextId).trace = [e] ∧
        entryM e = some (zeros_like_cpu sB.p.data nid') ∧
        entryV e = some (zeros_like_cpu sB.p.data (nid' + 1)) := by
      rcases hcase with ⟨_, hc2, hc3, _⟩ | ⟨sh, _, _, hc2, hc3, _⟩
      · obtain ⟨ps', hps', hstep, hm, hv⟩ := updSlot_st K oid _ g' nid'
        refine ⟨ps', entryOf gi pi oid _ g' nid', by rw [hc2]; exact hps', ?_, ?_, ?_, hc3,
          ?_, ?_⟩
        · rw [hstep, holdstar]
        · rw [(congrArg PState.exp_avg hps1.1 : _)] at hm
          exact hm
        · rw [(congrArg PState.exp_avg_sq hps1.1 : _)] at hv
          exact hv
        · show some (ps1of _ nid').exp_avg = _
          rw [(congrArg PState.exp_avg hps1.1 : _)]
        · show some (ps1of _ nid').exp_avg_sq = _
          rw [(congrArg PState.exp_avg_sq hps1.1 : _)]
      · obtain ⟨ps', hps', hstep, hm, hv⟩ := updSlotC_st K oid _ g' sh nid'
        refine ⟨ps', entryOfC gi pi oid _ g' sh nid', by rw [hc2]; exact hps', ?_, ?_, ?_, hc3,
          ?_, ?_⟩
        · rw [hstep, holdstar]
        · rw [(congrArg PState.exp_avg hps1.1 : _)] at hm
          exact hm
        · rw [(congrArg PState.exp_avg_sq hps1.1 : _)] at hv
          exact hv
        · show some (ps1of _ nid').exp_avg = _
          rw [(congrArg PState.exp_avg hps1.1 : _)]
        · show some (ps1of _ nid').exp_avg_sq = _
          rw [(congrArg PState.exp_avg_sq hps1.1 : _)]
    obtain ⟨psA, e, hpsA, hstepA, hmA, hvA, htrA, heM, heV⟩ := hfacts
    -- the whole prefix run of c+1 calls, decomposed
    have hA : runSteps K oid (specs.take (c + 1)) rs =
        ({ groups := (step K cspec.fail oid
              (installGrads cspec.grads (runSteps K oid (specs.take c) rs).1.groups) cspec.fp16
              (runSteps K oid (specs.take c) rs).1.nextId).groups,
           nextId := (step K cspec.fail oid
              (installGrads cspec.grads (runSteps K oid (specs.take c) rs).1.groups) cspec.fp16
              (runSteps K oid (specs.take c) rs).1.nextId).nextId },
         (runSteps K oid (specs.take c) rs).2.1 ++ [(step K cspec.fail oid
              (installGrads cspec.grads (runSteps K oid (specs.take c) rs).1.groups) cspec.fp16
              (runSteps K oid (specs.take c) rs).1.nextId).trace],
         (runSteps K oid (specs.take c) rs).2.2.1 ++ [(step K cspec.fail oid
              (installGrads cspec.grads (runSteps K oid (specs.take c) rs).1.groups) cspec.fp16
              (runSteps K oid (specs.take c) rs).1.nextId).err],
         (runSteps K oid (specs.take c) rs).2.2.2 ++ [(step K cspec.fail oid
              (installGrads cspec.grads (runSteps K oid (specs.take c) rs).1.groups) cspec.fp16
              (runSteps K oid (specs.take c) rs).1.nextId).fp16]) := by
      rw [htake1, runSteps_append]
      rfl
    have hclen : c < specs.length := by
      rcases List.getElem?_eq_some.mp hc with ⟨hl, _⟩
      exact hl
    have htlen : (runSteps K oid (specs.take c) rs).2.1.length = c := by
      rw [run_traces_length, List.length_take]
      omega
    refine ⟨g1', s1', psA, ?_, hs1', hpsA, hstepA, ?_, ?_, ?_, ?_, ?_, ?_, ?_, ?_⟩
    · rw [hA]
      exact hg1'
    · exact hmA.2.1.trans b4.2.1
    · exact hmA.2.2.1.trans b4.2.2.1
    · exact hmA.2.2.2
    · exact hvA.2.1.trans b4.2.1
    · exact hvA.2.2.1.trans b4.2.2.1
    · exact hvA.2.2.2
    · refine ⟨_, e, ?_, htrA, ⟨_, heM, ?_, b4.2.1, b4.2.2.1, rfl⟩, ⟨_, heV, ?_, b4.2.1,
        b4.2.2.1, rfl⟩⟩
      · rw [hA]
        show ((runSteps K oid (specs.take c) rs).2.1 ++ [_])[c]? = _
        rw [List.getElem?_append_right (by omega), htlen]
        simp
      · intro x hx
        exact List.eq_of_mem_replicate hx
      · intro x hx
        exact List.eq_of_mem_replicate hx
    · intro n hn
      have hneq : (c + 1) + (n - (c + 1)) = n := by omega
      have herrN := run_errs_take K oid specs rs herr n
      rw [← hneq, List.take_add] at herrN
      obtain ⟨herrN1, herrN2⟩ :=
        run_errs_split K oid (specs.take (c + 1)) ((specs.drop (c + 1)).take (n - (c + 1)))
          rs herrN
      have hApos : (runSteps K oid (specs.take (c + 1)) rs).1.groups[gi]? = some g1' := by
        rw [hA]
        exact hg1'
      obtain ⟨gN, sN, n1, n2, n3, n4, n5, n6, n7, n8, n9, n10⟩ :=
        run_get K oid ((specs.drop (c + 1)).take (n - (c + 1)))
          (runSteps K oid (specs.take (c + 1)) rs).1 gi pi g1' s1' hApos hs1' herrN2
      obtain ⟨psN, hpsN, hbm, hbv⟩ := n9 psA hpsA
      refine ⟨gN, sN, psN, ?_, n2, hpsN, hbm, hbv⟩
      rw [← hneq, List.take_add, runSteps_append]
      exact n1

/-- Claim C6: in an error-free sequence of `step` calls, the first call in
which a previously untracked parameter carries a gradient allocates its
state: the step counter reads 1 right after that call (0 at allocation, one
increment), the moment buffers are zero-filled, live on the CPU, and match
the parameter's shape and dtype exactly (the kernel invocation of that call
receives those zero-filled, shape-matched buffers); before that call no
state entry exists; and after every later call the state still holds the
same buffers — same allocation identity, shape, dtype, device — never
reallocated. -/
theorem lazy_state_allocation (K : Kernel) (oid : Nat) (specs : List CallSpec)
    (rs : RunState) (gi pi : Nat) (g0 : ParamGroup) (s0 : Slot) (c : Nat) (cspec : CallSpec)
    (hg : rs.groups[gi]? = some g0) (hsl : g0.slots[pi]? = some s0) (hst : s0.st = none)
    (hc : specs[c]? = some cspec) (hcg : (gradAt cspec.grads gi pi).isSome = true)
    (hbefore : ∀ (i : Nat) (cc : CallSpec), i < c → specs[i]? = some cc →
      gradAt cc.grads gi pi = none)
    (herr : ∀ x ∈ (runSteps K oid specs rs).2.2.1, x = false) :
    (∃ gB sB, (runSteps K oid (specs.take c) rs).1.groups[gi]? = some gB ∧
      gB.slots[pi]? = some sB ∧ sB.st = none) ∧
    (∃ gA sA psA, (runSteps K oid (specs.take (c + 1)) rs).1.groups[gi]? = some gA ∧
      gA.slots[pi]? = some sA ∧ sA.st = some psA ∧ psA.step = 1 ∧
      psA.exp_avg.shape = s0.p.data.shape ∧ psA.exp_avg.dtype = s0.p.data.dtype ∧
      psA.exp_avg.device = Device.cpu ∧
      psA.exp_avg_sq.shape = s0.p.data.shape ∧ psA.exp_avg_sq.dtype = s0.p.data.dtype ∧
      psA.exp_avg_sq.device = Device.cpu ∧
      (∃ tr e, (runSteps K oid (specs.take (c + 1)) rs).2.1[c]? = some tr ∧
        callsFor gi pi tr = [e] ∧
        (∃ m, entryM e = some m ∧ (∀ x ∈ m.data, x = 0) ∧
          m.shape = s0.p.data.shape ∧ m.dtype = s0.p.data.dtype ∧
          m.device = Device.cpu) ∧
        (∃ v, entryV e = some v ∧ (∀ x ∈ v.data, x = 0) ∧
          v.shape = s0.p.data.shape ∧ v.dtype = s0.p.data.dtype ∧
          v.device = Device.cpu)) ∧
      (∀ n, c + 1 ≤ n →
        ∃ gN sN psN, (runSteps K oid (specs.take n) rs).1.groups[gi]? = some gN ∧
          gN.slots[pi]? = some sN ∧ sN.st = some psN ∧
          sameBuf psA.exp_avg psN.exp_avg ∧ sameBuf psA.exp_avg_sq psN.exp_avg_sq)) :=
  run_first_grad_alloc K oid specs rs gi pi g0 s0 c cspec hg hsl hst hc hcg hbefore herr

theorem lazy_state_allocation_witness :
    ∃ gB sB, (runSteps idKernel 0 ([wSpecNone, wSpecGrad].take 1) wRun).1.groups[0]? = some gB ∧
      gB.slots[0]? = some sB ∧ sB.st = none :=
  (lazy_state_allocation idKernel 0 [wSpecNone, wSpecGrad] wRun 0 0
    { slots := [wSlotFresh], cfg := sampleConfig } wSlotFresh 1 wSpecGrad
    rfl rfl rfl (by simp) rfl
    (fun i cc hi hcc => by
      have hi0 : i = 0 := by omega
      subst hi0
      simp only [List.getElem?_cons_zero, Option.some.injEq] at hcc
      rw [← hcc]
      rfl)
    (by decide)).1

/- ### Claim C9: moment buffers are zero at allocation, not after the step -/

/-- Modelled from the spec: the moment recurrences of the native Adam kernel
(`csrc/adam/cpu_adam.cpp`, referenced by `load_op` but not present under
`src/`). Per §4.4, `update` "performs one bias-corrected Adam step ... in
place", and the glossary defines Adam as maintaining exponentially-weighted
running averages of the gradient and of the squared gradient:
`m := beta1*m + (1-beta1)*g` and `v := beta2*v + (1-beta2)*g*g`. The
parameter write-back is the backend's out-of-scope arithmetic (§1) and is
irrelevant to the property settled here, so the parameter buffer is returned
unchanged; the shadow output of `updCopy` mirrors the parameter buffer. -/
def specMomentKernel (beta1 beta2 : ℚ) : Kernel :=
  { upd := fun _ p g m v =>
      (p, List.zipWith (fun mi gg => beta1 * mi + (1 - beta1) * gg) m g,
          List.zipWith (fun vi gg => beta2 * vi + (1 - beta2) * gg * gg) v g),
    updCopy := fun _ p g m v _ =>
      (p, List.zipWith (fun mi gg => beta1 * mi + (1 - beta1) * gg) m g,
          List.zipWith (fun vi gg => beta2 * vi + (1 - beta2) * gg * gg) v g, p) }

/-- A parameter of shape [1] with value 0 carrying gradient 1, untracked. -/
def cxSlot : Slot :=
  { p := { data := { tid := 0, shape := [1], dtype := DType.f32,
                     device := Device.cpu, data := [0] },
           grad := some { tid := 1, shape := [1], dtype := DType.f32,
                          device := Device.cpu, data := [1] } },
    st := none }

/-- Claim C9, counterexample: with the spec's own moment recurrence
(beta1 = 9/10), a parameter with gradient 1 has `exp_avg = [1/10]` right
after its first tracked `step` call — not all-zero. The buffers are zero at
allocation (when passed to the kernel), not after the call returns. -/
theorem zero_after_first_tracked_step_refuted :
    (((step (specMomentKernel (9 / 10) (999 / 1000)) (fun _ => false) 0
        [{ slots := [cxSlot], cfg := sampleConfig }] none 7).groups.headD
        { slots := [], cfg := sampleConfig }).slots.headD cxSlot).st =
      some { step := 1,
             exp_avg := { tid := 7, shape := [1], dtype := DType.f32,
                          device := Device.cpu, data := [1 / 10] },
             exp_avg_sq := { tid := 8, shape := [1], dtype := DType.f32,
                             device := Device.cpu, data := [1 / 1000] } } ∧
    ¬(∀ x ∈ [(1 : ℚ) / 10], x = 0) := by
  constructor
  · simp only [step, stepGroups, stepParams, procParam, initState, optAt, optSet,
      zeros_like_cpu, specMomentKernel, cxSlot, sampleConfig, List.headD]
    norm_num
  · intro h
    have := h (1 / 10) (by simp)
    norm_num at this

/-- Claim C9, amended: for every tracked parameter, `exp_avg` and
`exp_avg_sq` are all-zero at allocation — the buffers the kernel receives at
the parameter's first tracked step are zero-filled and shape/dtype-matched —
and after that call and every subsequent one the stored buffers remain
shape/dtype-identical to the parameter and CPU-resident. -/
theorem moment_buffers_zero_at_allocation (K : Kernel) (oid : Nat) (specs : List CallSpec)
    (rs : RunState) (gi pi : Nat) (g0 : ParamGroup) (s0 : Slot) (c : Nat) (cspec : CallSpec)
    (hg : rs.groups[gi]? = some g0) (hsl : g0.slots[pi]? = some s0) (hst : s0.st = none)
    (hc : specs[c]? = some cspec) (hcg : (gradAt cspec.grads gi pi).isSome = true)
    (hbefore : ∀ (i : Nat) (cc : CallSpec), i < c → specs[i]? = some cc →
      gradAt cc.grads gi pi = none)
    (herr : ∀ x ∈ (runSteps K oid specs rs).2.2.1, x = false) :
    (∃ tr e, (runSteps K oid (specs.take (c + 1)) rs).2.1[c]? = some tr ∧
      callsFor gi pi tr = [e] ∧
      (∃ m, entryM e = some m ∧ (∀ x ∈ m.data, x = 0) ∧
        m.shape = s0.p.data.shape ∧ m.dtype = s0.p.data.dtype ∧ m.device = Device.cpu) ∧
      (∃ v, entryV e = some v ∧ (∀ x ∈ v.data, x = 0) ∧
        v.shape = s0.p.data.shape ∧ v.dtype = s0.p.data.dtype ∧ v.device = Device.cpu)) ∧
    (∀ n, c + 1 ≤ n →
      ∃ gN sN psN, (runSteps K oid (specs.take n) rs).1.groups[gi]? = some gN ∧
        gN.slots[pi]? = some sN ∧ sN.st = some psN ∧
        psN.exp_avg.shape = s0.p.data.shape ∧ psN.exp_avg.dtype = s0.p.data.dtype ∧
        psN.exp_avg.device = Device.cpu ∧
        psN.exp_avg_sq.shape = s0.p.data.shape ∧ psN.exp_avg_sq.dtype = s0.p.data.dtype ∧
        psN.exp_avg_sq.device = Device.cpu) := by
  obtain ⟨_, gA, sA, psA, a1, a2, a3, a4, a5, a6, a7, a8, a9, a10, a11, a12⟩ :=
    run_first_grad_alloc K oid specs rs gi pi g0 s0 c cspec hg hsl hst hc hcg hbefore herr
  refine ⟨a11, ?_⟩
  intro n hn
  obtain ⟨gN, sN, psN, n1, n2, n3, hbm, hbv⟩ := a12 n hn
  exact ⟨gN, sN, psN, n1, n2, n3,
    hbm.2.1.trans a5, hbm.2.2.1.trans a6, hbm.2.2.2.trans a7,
    hbv.2.1.trans a8, hbv.2.2.1.trans a9, hbv.2.2.2.trans a10⟩

theorem moment_buffers_zero_at_allocation_witness :
    ∃ tr e, (runSteps idKernel 0 ([wSpecNone, wSpecGrad].take (1 + 1)) wRun).2.1[1]? = some tr ∧
      callsFor 0 0 tr = [e] ∧
      (∃ m, entryM e = some m ∧ (∀ x ∈ m.data, x = 0) ∧
        m.shape = wSlotFresh.p.data.shape ∧ m.dtype = wSlotFresh.p.data.dtype ∧
        m.device = Device.cpu) ∧
      (∃ v, entryV e = some v ∧ (∀ x ∈ v.data, x = 0) ∧
        v.shape = wSlotFresh.p.data.shape ∧ v.dtype = wSlotFresh.p.data.dtype ∧
        v.device = Device.cpu) :=
  (moment_buffers_zero_at_allocation idKernel 0 [wSpecNone, wSpecGrad] wRun 0 0
    { slots := [wSlotFresh], cfg := sampleConfig } wSlotFresh 1 wSpecGrad
    rfl rfl rfl (by simp) rfl
    (fun i cc hi hcc => by
      have hi0 : i = 0 := by omega
      subst hi0
      simp only [List.getElem?_cons_zero, Option.some.injEq] at hcc
      rw [← hcc]
      rfl)
    (by decide)).1

/- ### Claim C8: step is not atomic under a kernel failure -/

lemma gradCnt_cons (s : Slot) (xs : List Slot) :
    gradCnt (s :: xs) = (if s.p.grad.isSome then 1 else 0) + gradCnt xs := by
  by_cases h : s.p.grad.isSome
  · simp [gradCnt, List.filter, h, Nat.add_comm]
  · simp [gradCnt, List.filter, h]

lemma pp_nonfp_eq (K : Kernel) (fail : Nat → Bool) (oid gi pi : Nat) (s : Slot)
    (slot0 : Option Tensor) (a : Acc) (g : Tensor)
    (he : a.err = false) (hg : s.p.grad = some g) (hf : fail a.calls = false) :
    procParam K fail oid gi pi false s slot0 a =
      (updSlot K oid s g a.nextId, slot0,
       { a with nextId := nid1of s a.nextId, calls := a.calls + 1,
                trace := a.trace ++ [entryOf gi pi oid s g a.nextId] }) := by
  simp [procParam, he, hg, hf, updSlot, entryOf, ps1of, nid1of]

lemma pp_fail (K : Kernel) (fail : Nat → Bool) (oid gi pi : Nat) (s : Slot)
    (slot0 : Option Tensor) (a : Acc) (g : Tensor)
    (he : a.err = false) (hg : s.p.grad = some g) (hf : fail a.calls = true) :
    procParam K fail oid gi pi false s slot0 a =
      (⟨s.p, some (ps1of s a.nextId)⟩, slot0,
       { a with nextId := nid1of s a.nextId, calls := a.calls + 1, err := true }) := by
  simp [procParam, he, hg, hf, ps1of, nid1of]

lemma sp_append (K : Kernel) (fail : Nat → Bool) (oid gi : Nat) (fpMode : Bool) :
    ∀ (xs ys : List Slot) (pi : Nat) (fpg : Option (List Tensor)) (a : Acc),
      stepParams K fail oid gi fpMode (xs ++ ys) pi fpg a =
        ((stepParams K fail oid gi fpMode xs pi fpg a).1 ++
          (stepParams K fail oid gi fpMode ys (pi + xs.length)
            (stepParams K fail oid gi fpMode xs pi fpg a).2.1
            (stepParams K fail oid gi fpMode xs pi fpg a).2.2).1,
         (stepParams K fail oid gi fpMode ys (pi + xs.length)
            (stepParams K fail oid gi fpMode xs pi fpg a).2.1
            (stepParams K fail oid gi fpMode xs pi fpg a).2.2).2) := by
  intro xs
  induction xs with
  | nil => intro ys pi fpg a; simp [stepParams]
  | cons s rest ih =>
    intro ys pi fpg a
    simp only [List.cons_append, stepParams, List.length_cons, List.append_eq]
    rw [ih ys (pi + 1) _ _]
    have harith : pi + 1 + rest.length = pi + (rest.length + 1) := by omega
    rw [harith]

/-- On an all-false failure oracle prefix, the run with the real oracle
agrees with the error-free reference run, stays error-free, and makes one
kernel call per gradient-bearing parameter. -/
lemma sp_oracle_false (K : Kernel) (fail : Nat → Bool) (oid gi : Nat) :
    ∀ (xs : List Slot) (pi : Nat) (a : Acc), a.err = false →
      (∀ i, i < a.calls + gradCnt xs → fail i = false) →
      stepParams K fail oid gi false xs pi none a =
        stepParams K (fun _ => false) oid gi false xs pi none a ∧
      (stepParams K fail oid gi false xs pi none a).2.2.err = false ∧
      (stepParams K fail oid gi false xs pi none a).2.2.calls = a.calls + gradCnt xs := by
  intro xs
  induction xs with
  | nil =>
    intro pi a he hor
    exact ⟨rfl, he, by simp [stepParams, gradCnt]⟩
  | cons s rest ih =>
    intro pi a he hor
    rcases hg : s.p.grad with _ | g
    · have hpp1 := pp_nograd K fail oid gi pi false s (optAt none pi) a he hg
      have hpp2 := pp_nograd K (fun _ => false) oid gi pi false s (optAt none pi) a he hg
      have hcnt : gradCnt (s :: rest) = gradCnt rest := by
        rw [gradCnt_cons, hg]
        simp
      rw [hcnt] at hor
      obtain ⟨e1, e2, e3⟩ := ih (pi + 1) a he hor
      refine ⟨?_, ?_, ?_⟩
      · simp only [stepParams, hpp1, hpp2, optSet_at_self]
        rw [e1]
      · simp only [stepParams, hpp1, optSet_at_self]
        exact e2
      · simp only [stepParams, hpp1, optSet_at_self]
        rw [e3, hcnt]
    · have hcnt : gradCnt (s :: rest) = 1 + gradCnt rest := by
        rw [gradCnt_cons, hg]
        simp
      have hf : fail a.calls = false := by
        apply hor a.calls
        rw [hcnt]
        omega
      have hpp1 := pp_nonfp_eq K fail oid gi pi s (optAt none pi) a g he hg hf
      have hpp2 := pp_nonfp_eq K (fun _ => false) oid gi pi s (optAt none pi) a g he hg rfl
      have hor' : ∀ i, i < (a.calls + 1) + gradCnt rest → fail i = false := by
        intro i hi
        apply hor
        rw [hcnt]
        omega
      obtain ⟨e1, e2, e3⟩ := ih (pi + 1)
        { a with nextId := nid1of s a.nextId, calls := a.calls + 1,
                 trace := a.trace ++ [entryOf gi pi oid s g a.nextId] } he hor'
      refine ⟨?_, ?_, ?_⟩
      · simp only [stepParams, hpp1, hpp2, optSet_at_self]
        rw [e1]
      · simp only [stepParams, hpp1, optSet_at_self]
        exact e2
      · simp only [stepParams, hpp1, optSet_at_self]
        simp only [e3, hcnt]
        omega

/-- The reference error-free run: how `step` processes the slot list `pre`
when no kernel call fails (group 0, no fp16, fresh-id seed `nid`). -/
def preRun (K : Kernel) (oid : Nat) (pre : List Slot) (nid : Nat) :
    List Slot × Option (List Tensor) × Acc :=
  stepParams K (fun _ => false) oid 0 false pre 0 none
    { nextId := nid, calls := 0, trace := [], err := false }

/-- Claim C8: `step()` is not atomic. If the kernel call raises while
processing the gradient-bearing parameter that follows the prefix `pre`
(the failure oracle fails exactly the `gradCnt pre`-th kernel call of this
`step`), then: the slots of `pre` come out exactly as in the error-free
reference run `preRun` — their step counters, moment buffers and parameter
data remain updated, with no rollback; the failing parameter keeps its
incremented step counter but its buffers are not written; the remaining
parameters `post` and the remaining groups `rest` are not processed at all;
the trace is exactly the reference run's trace; and the error propagates out
of `step` (`err = true`). The reference run itself is error-free and makes
exactly `gradCnt pre` kernel calls, so the failure indeed hits the call for
the parameter after `pre`. -/
theorem step_not_atomic (K : Kernel) (oid : Nat) (pre post : List Slot)
    (s0 : Slot) (g : Tensor) (cfg : Config) (rest : List ParamGroup) (nid : Nat)
    (hg : s0.p.grad = some g) :
    step K (fun i => decide (i = gradCnt pre)) oid
        ({ slots := pre ++ s0 :: post, cfg := cfg } :: rest) none nid =
      { groups :=
          { slots := (preRun K oid pre nid).1 ++
              ⟨s0.p, some (ps1of s0 (preRun K oid pre nid).2.2.nextId)⟩ :: post,
            cfg := cfg } :: rest,
        fp16 := none,
        trace := (preRun K oid pre nid).2.2.trace,
        err := true,
        nextId := nid1of s0 (preRun K oid pre nid).2.2.nextId } ∧
    (preRun K oid pre nid).2.2.err = false ∧
    (preRun K oid pre nid).2.2.calls = gradCnt pre := by
  have hor : ∀ i, i < (0 : Nat) + gradCnt pre →
      (decide (i = gradCnt pre) : Bool) = false := by
    intro i hi
    simp only [decide_eq_false_iff_not]
    omega
  obtain ⟨hpre, herr0, hcalls0⟩ := sp_oracle_false K (fun i => decide (i = gradCnt pre))
    oid 0 pre 0 { nextId := nid, calls := 0, trace := [], err := false } rfl hor
  rw [hpre] at herr0 hcalls0
  have hfail : (decide
      ((stepParams K (fun _ => false) oid 0 false pre 0 none
        { nextId := nid, calls := 0, trace := [], err := false }).2.2.calls
        = gradCnt pre) : Bool) = true := by
    rw [hcalls0]
    simp
  refine ⟨?_, ?_, ?_⟩
  · simp only [preRun]
    simp only [step, Option.isSome_none, stepGroups, optAt_none]
    rw [sp_append K (fun i => decide (i = gradCnt pre)) oid 0 false pre (s0 :: post) 0 none
      { nextId := nid, calls := 0, trace := [], err := false }]
    rw [hpre]
    rw [sp_fp_none K (fun _ => false) oid 0 false pre 0
      { nextId := nid, calls := 0, trace := [], err := false }]
    simp only [stepParams, optAt_none]
    rw [pp_fail K (fun i => decide (i = gradCnt pre)) oid 0 (0 + pre.length) s0 none
      (stepParams K (fun _ => false) oid 0 false pre 0 none
        { nextId := nid, calls := 0, trace := [], err := false }).2.2 g herr0 hg hfail]
    simp only [optSet_none]
    rw [sp_passthrough K (fun i => decide (i = gradCnt pre)) oid 0 false post
      (0 + pre.length + 1) none _ rfl]
    dsimp only
    simp only [optSet_none]
    rw [sg_passthrough K (fun i => decide (i = gradCnt pre)) oid false rest (0 + 1) none _ rfl]
  · simp only [preRun]
    exact herr0
  · simp only [preRun, hcalls0]
    omega

/-- Claim C8 witness: one group of two gradient-bearing parameters; the
kernel call for the second one fails. The first slot keeps its update, the
second gets only the incremented step counter, and the error propagates. -/
theorem step_not_atomic_witness :
    wSlot.p.grad = some wGrad ∧
    (step idKernel (fun i => decide (i = gradCnt [wSlot])) 0
        [{ slots := [wSlot] ++ wSlot :: [], cfg := sampleConfig }] none 3 =
      { groups :=
          { slots := (preRun idKernel 0 [wSlot] 3).1 ++
              ⟨wSlot.p, some (ps1of wSlot (preRun idKernel 0 [wSlot] 3).2.2.nextId)⟩ :: [],
            cfg := sampleConfig } :: [],
        fp16 := none,
        trace := (preRun idKernel 0 [wSlot] 3).2.2.trace,
        err := true,
        nextId := nid1of wSlot (preRun idKernel 0 [wSlot] 3).2.2.nextId } ∧
      (preRun idKernel 0 [wSlot] 3).2.2.err = false ∧
      (preRun idKernel 0 [wSlot] 3).2.2.calls = gradCnt [wSlot]) :=
  ⟨rfl, step_not_atomic idKernel 0 [wSlot] [] wSlot wGrad sampleConfig [] 3 rfl⟩

/- ### Claim C7: fp16 shadow path selection -/

/-- Claim C7: in an error-free `step` call, every gradient-bearing parameter
gets exactly one kernel update call: with `fp16_param_groups` supplied it is
an `adam_update_copy` whose shadow argument is the fp16 entry at the same
group index and parameter index, and that fp16 slot is written back with the
kernel's shadow output; with `fp16_param_groups` absent it is an
`adam_update`, and the call produces no fp16 output at all (no shadow buffer
is touched). -/
theorem fp16_shadow_selection (K : Kernel) (fail : Nat → Bool) (oid : Nat)
    (groups : List ParamGroup) (nid : Nat) :
    (∀ (fpl : List (List Tensor)),
      (step K fail oid groups (some fpl) nid).err = false →
      ∀ (gi : Nat) (g0 : ParamGroup) (pi : Nat) (s : Slot) (g : Tensor),
        groups[gi]? = some g0 → g0.slots[pi]? = some s → s.p.grad = some g →
        ∃ sh nid', optAt (optAt (some fpl) gi) pi = some sh ∧
          callsFor gi pi (step K fail oid groups (some fpl) nid).trace =
            [entryOfC gi pi oid s g sh nid'] ∧
          optAt (optAt (step K fail oid groups (some fpl) nid).fp16 gi) pi =
            some (shOut K oid s g sh nid')) ∧
    (step K fail oid groups none nid).fp16 = none ∧
    ((step K fail oid groups none nid).err = false →
      ∀ (gi : Nat) (g0 : ParamGroup) (pi : Nat) (s : Slot) (g : Tensor),
        groups[gi]? = some g0 → g0.slots[pi]? = some s → s.p.grad = some g →
        ∃ nid', callsFor gi pi (step K fail oid groups none nid).trace =
          [entryOf gi pi oid s g nid']) := by
  refine ⟨?_, ?_, ?_⟩
  · intro fpl hok gi g0 pi s g hgi hpi hg
    obtain ⟨g1, _, _, hinner⟩ := step_get K fail oid groups (some fpl) nid hok gi g0 hgi
    obtain ⟨s', _, hdesc⟩ := hinner pi s hpi
    rcases hdesc with ⟨hA1, _⟩ | ⟨g', nid', hB1, hcase⟩
    · rw [hg] at hA1; cases hA1
    · rw [hg] at hB1
      injection hB1 with hB1'
      subst hB1'
      rcases hcase with ⟨hfp, _⟩ | ⟨sh, _, hsl, _, hc3, hc4⟩
      · cases hfp
      · exact ⟨sh, nid', hsl, hc3, hc4⟩
  · exact sg_fp_none_out K fail oid false groups 0 _
  · intro hok gi g0 pi s g hgi hpi hg
    obtain ⟨g1, _, _, hinner⟩ := step_get K fail oid groups none nid hok gi g0 hgi
    obtain ⟨s', _, hdesc⟩ := hinner pi s hpi
    rcases hdesc with ⟨hA1, _⟩ | ⟨g', nid', hB1, hcase⟩
    · rw [hg] at hA1; cases hA1
    · rw [hg] at hB1
      injection hB1 with hB1'
      subst hB1'
      rcases hcase with ⟨_, _, hc3, _⟩ | ⟨sh, hfp, _⟩
      · exact ⟨nid', hc3⟩
      · cases hfp

theorem fp16_shadow_selection_witness :
    (∃ sh nid', optAt (optAt (some [[wShadow]]) 0) 0 = some sh ∧
      callsFor 0 0 (step idKernel (fun _ => false) 0 [wGroup] (some [[wShadow]]) 5).trace =
        [entryOfC 0 0 0 wSlot wGrad sh nid'] ∧
      optAt (optAt (step idKernel (fun _ => false) 0 [wGroup] (some [[wShadow]]) 5).fp16 0) 0 =
        some (shOut idKernel 0 wSlot wGrad sh nid')) ∧
    (step idKernel (fun _ => false) 0 [wGroup] none 5).fp16 = none ∧
    (∃ nid', callsFor 0 0 (step idKernel (fun _ => false) 0 [wGroup] none 5).trace =
      [entryOf 0 0 0 wSlot wGrad nid']) := by
  have h := fp16_shadow_selection idKernel (fun _ => false) 0 [wGroup] 5
  exact ⟨h.1 [[wShadow]] (by decide) 0 wGroup 0 wSlot wGrad rfl rfl rfl,
         h.2.1,
         h.2.2 (by decide) 0 wGroup 0 wSlot wGrad rfl rfl rfl⟩

/- ### Claim C10: amsgrad has no effect on kernel interaction -/

/-- Rewrite the stored defaults of every group, leaving the parameters and
their state slots untouched. -/
def mapCfg (f : Config → Config) (gs : List ParamGroup) : List ParamGroup :=
  gs.map fun g => { slots := g.slots, cfg := f g.cfg }

lemma sg_mapCfg (K : Kernel) (fail : Nat → Bool) (oid : Nat) (fpMode : Bool)
    (f : Config → Config) :
    ∀ (gs : List ParamGroup) (gi : Nat) (fp : Option (List (List Tensor))) (a : Acc),
      stepGroups K fail oid fpMode (mapCfg f gs) gi fp a =
        (mapCfg f (stepGroups K fail oid fpMode gs gi fp a).1,
         (stepGroups K fail oid fpMode gs gi fp a).2) := by
  intro gs
  induction gs with
  | nil => intro gi fp a; rfl
  | cons g rest ih =>
    intro gi fp a
    simp only [mapCfg, List.map_cons] at ih ⊢
    simp only [stepGroups]
    rw [ih (gi + 1) _ _]
    simp

lemma step_mapCfg (K : Kernel) (fail : Nat → Bool) (oid : Nat) (f : Config → Config)
    (groups : List ParamGroup) (fp : Option (List (List Tensor))) (nid : Nat) :
    step K fail oid (mapCfg f groups) fp nid =
      { groups := mapCfg f (step K fail oid groups fp nid).groups,
        fp16 := (step K fail oid groups fp nid).fp16,
        trace := (step K fail oid groups fp nid).trace,
        err := (step K fail oid groups fp nid).err,
        nextId := (step K fail oid groups fp nid).nextId } := by
  simp only [step, sg_mapCfg]

lemma installGrads_mapCfg (f : Config → Config) :
    ∀ (groups : List ParamGroup) (gs : List (List (Option Tensor))),
      installGrads gs (mapCfg f groups) = mapCfg f (installGrads gs groups) := by
  intro groups
  induction groups with
  | nil => intro gs; rfl
  | cons g rest ih =>
    intro gs
    simp only [mapCfg, List.map_cons] at ih ⊢
    simp only [installGrads]
    rw [ih gs.tail]
    simp

lemma runSteps_mapCfg (K : Kernel) (oid : Nat) (f : Config → Config) :
    ∀ (specs : List CallSpec) (groups : List ParamGroup) (nid : Nat),
      runSteps K oid specs { groups := mapCfg f groups, nextId := nid } =
        ({ groups :=
             mapCfg f (runSteps K oid specs { groups := groups, nextId := nid }).1.groups,
           nextId := (runSteps K oid specs { groups := groups, nextId := nid }).1.nextId },
         (runSteps K oid specs { groups := groups, nextId := nid }).2) := by
  intro specs
  induction specs with
  | nil => intro groups nid; rfl
  | cons c cs ih =>
    intro groups nid
    simp only [runSteps]
    rw [installGrads_mapCfg, step_mapCfg]
    dsimp only
    rw [ih]

/-- Claim C10: the `amsgrad` constructor argument has no effect on any
kernel interaction. For two constructions from the same process state that
differ only in the `amsgrad` flag: the constructed `opt_id`, the resulting
process state and the `create_adam` call (which receives only `opt_id`,
`lr`, `beta1`, `beta2`, `eps`, `weight_decay`) are identical; the stored
groups differ only in the recorded `amsgrad` default; and every subsequent
sequence of `step` calls — for any kernel, gradient schedule, fp16
arguments and failure oracles — produces identical `adam_update` /
`adam_update_copy` traces, identical error flags, identical fp16 outputs
and identical allocation counters, with the final groups again differing
only in the recorded `amsgrad` default. -/
theorem amsgrad_no_kernel_effect (fuel : Nat) (w : World) (s : ProcState)
    (cfg : Config) (b : Bool) (mp : List (List Param)) (K : Kernel)
    (specs : List CallSpec) (nid : Nat)
    (o o' : Optimizer) (ps ps' : ProcState) (tr tr' : List KCall)
    (h : construct fuel w s cfg mp = some (o, ps, tr))
    (h' : construct fuel w s { cfg with amsgrad := b } mp = some (o', ps', tr')) :
    o'.opt_id = o.opt_id ∧ ps' = ps ∧ tr' = tr ∧
    o'.groups = mapCfg (fun c => { c with amsgrad := b }) o.groups ∧
    (runSteps K o.opt_id specs { groups := o'.groups, nextId := nid }).2 =
      (runSteps K o.opt_id specs { groups := o.groups, nextId := nid }).2 ∧
    (runSteps K o.opt_id specs { groups := o'.groups, nextId := nid }).1.nextId =
      (runSteps K o.opt_id specs { groups := o.groups, nextId := nid }).1.nextId ∧
    (runSteps K o.opt_id specs { groups := o'.groups, nextId := nid }).1.groups =
      mapCfg (fun c => { c with amsgrad := b })
        (runSteps K o.opt_id specs { groups := o.groups, nextId := nid }).1.groups := by
  rcases hl : load_op fuel w { s with optimizer_id := s.optimizer_id + 1 } with _ | hs
  · simp [construct, hl] at h
  · simp only [construct, hl, Option.some.injEq, Prod.mk.injEq] at h h'
    obtain ⟨ho, hps, htr⟩ := h
    obtain ⟨ho', hps', htr'⟩ := h'
    subst ho hps htr ho' hps' htr'
    have hmap : (mp.map fun psx : List Param =>
        ({ slots := psx.map fun p => { p := p, st := none },
           cfg := { cfg with amsgrad := b } } : ParamGroup)) =
        mapCfg (fun c => { c with amsgrad := b })
          (mp.map fun psx : List Param =>
            ({ slots := psx.map fun p => { p := p, st := none }, cfg := cfg } : ParamGroup)) := by
      simp only [mapCfg, List.map_map]
      rfl
    refine ⟨rfl, rfl, rfl, hmap, ?_, ?_, ?_⟩
    · dsimp only
      rw [hmap, runSteps_mapCfg]
    · dsimp only
      rw [hmap, runSteps_mapCfg]
    · dsimp only
      rw [hmap, runSteps_mapCfg]

def wCfgA : Config := { sampleConfig with amsgrad := true }

def wOptA : Optimizer :=
  { opt_id := 0,
    groups := [{ slots := [{ p := sampleParam, st := none }], cfg := sampleConfig }] }

def wOptA' : Optimizer :=
  { opt_id := 0,
    groups := [{ slots := [{ p := sampleParam, st := none }], cfg := wCfgA }] }

def wPsA : ProcState :=
  { ds_opt_adam := some 0, optimizer_id := 1, wroteStarted := true, wroteDone := true,
    compiles := 1 }

def wTrA : List KCall :=
  [KCall.create 0 sampleConfig.lr sampleConfig.beta1 sampleConfig.beta2 sampleConfig.eps
    sampleConfig.weight_decay]

/-- Claim C10 witness: two concrete constructions differing only in
`amsgrad`, followed by one gradient-bearing `step` call. -/
theorem amsgrad_no_kernel_effect_witness :
    wOptA'.opt_id = wOptA.opt_id ∧ wPsA = wPsA ∧ wTrA = wTrA ∧
    wOptA'.groups = mapCfg (fun c => { c with amsgrad := true }) wOptA.groups ∧
    (runSteps idKernel wOptA.opt_id [wSpecGrad] { groups := wOptA'.groups, nextId := 5 }).2 =
      (runSteps idKernel wOptA.opt_id [wSpecGrad] { groups := wOptA.groups, nextId := 5 }).2 ∧
    (runSteps idKernel wOptA.opt_id [wSpecGrad] { groups := wOptA'.groups, nextId := 5 }).1.nextId =
      (runSteps idKernel wOptA.opt_id [wSpecGrad] { groups := wOptA.groups, nextId := 5 }).1.nextId ∧
    (runSteps idKernel wOptA.opt_id [wSpecGrad] { groups := wOptA'.groups, nextId := 5 }).1.groups =
      mapCfg (fun c => { c with amsgrad := true })
        (runSteps idKernel wOptA.opt_id [wSpecGrad] { groups := wOptA.groups, nextId := 5 }).1.groups :=
  amsgrad_no_kernel_effect 0 quietWorld freshProc sampleConfig true [[sampleParam]]
    idKernel [wSpecGrad] 5 wOptA wOptA' wPsA wPsA wTrA wTrA rfl rfl

end DeepSpeedCPUAdam
